import Mathlib

/-!
Verification of the jelou transliteration pipeline.

This file gives a shallow embedding of the core of the jelou repository:

* `src/jelou/arpabet_to_ipa.py` — the ARPABET → IPA phoneme mapper,
* `src/jelou/phonetic_engine.py` — the IPA → Spanish rewrite engine,
* `src/jelou/cmu_dictionary.py` — corpus loading and variant selection,
* `src/jelou/jelou_api.py` — the word-level and direct-notation entry points,

and proves properties of the embedded definitions.  Strings are modelled as
`List Char`; Python's `str.replace` (all occurrences, left to right,
non-overlapping) is modelled by `replaceAll`, and `str.replace(p, r, 1)` by
`repOnce`.  `str.upper`/`str.lower` are modelled on the ASCII range, which is
faithful for every string the modelled code paths produce.
-/

set_option maxRecDepth 20000

namespace Jelou

abbrev Str := List Char

/-! ### Basic string primitives -/

/-- ASCII uppercase conversion (models Python `str.upper` on the data used). -/
def upperChar (c : Char) : Char :=
  if 'a' ≤ c ∧ c ≤ 'z' then Char.ofNat (c.toNat - 32) else c

/-- ASCII lowercase conversion (models Python `str.lower` on the data used). -/
def lowerChar (c : Char) : Char :=
  if 'A' ≤ c ∧ c ≤ 'Z' then Char.ofNat (c.toNat + 32) else c

def upperStr (s : Str) : Str := s.map upperChar

def lowerStr (s : Str) : Str := s.map lowerChar

def wsChar (c : Char) : Bool :=
  (c == ' ') || (c == '\t') || (c == '\n') || (c == '\r')

/-- Helper for `words`: accumulates the current word (reversed). -/
def wordsAux : Str → Str → List Str
  | [], acc => if acc.isEmpty then [] else [acc.reverse]
  | c :: cs, acc =>
    if wsChar c then
      if acc.isEmpty then wordsAux cs [] else acc.reverse :: wordsAux cs []
    else wordsAux cs (c :: acc)

/-- Python `str.split()` with no arguments: split on whitespace runs. -/
def words (s : Str) : List Str := wordsAux s []

/-- Python `str.strip()`. -/
def strip (s : Str) : Str :=
  ((s.dropWhile (fun c => wsChar c)).reverse.dropWhile (fun c => wsChar c)).reverse

/-- Python `str.split(maxsplit=1)` restricted to the two-field shape the
    loader needs: returns `none` when there are fewer than two fields.
    (`processLine` only calls this on stripped lines, where this agrees with
    Python.) -/
def split2 (s : Str) : Option (Str × Str) :=
  let w := s.takeWhile (fun c => !wsChar c)
  let rest := (s.dropWhile (fun c => !wsChar c)).dropWhile (fun c => wsChar c)
  if w.isEmpty ∨ rest.isEmpty then none else some (w, rest)

def isStressDigit (c : Char) : Bool := (c == '0') || (c == '1') || (c == '2')

/-- Python `str.rstrip("012")`. -/
def stripD (s : Str) : Str := (s.reverse.dropWhile isStressDigit).reverse

def isPref : Str → Str → Bool
  | [], _ => true
  | _ :: _, [] => false
  | p :: ps, c :: cs => (p == c) && isPref ps cs

/-- Python `p in s` (substring test). -/
def containsSub (p : Str) : Str → Bool
  | [] => isPref p []
  | c :: cs => isPref p (c :: cs) || containsSub p cs

/-- Python `s.endswith(p)`. -/
def endsW (p s : Str) : Bool := isPref p.reverse s.reverse

/-- Core of `replaceAll`.  The `Nat` argument counts characters still to be
    skipped because they belonged to an already-replaced match. -/
def repAux (p r : Str) : Nat → Str → Str
  | _, [] => []
  | Nat.succ k, _ :: cs => repAux p r k cs
  | 0, c :: cs =>
    if isPref p (c :: cs) then r ++ repAux p r (p.length - 1) cs
    else c :: repAux p r 0 cs

/-- Python `s.replace(p, r)`: every non-overlapping occurrence, left to
    right. -/
def replaceAll (p r s : Str) : Str := repAux p r 0 s

/-- Python `s.replace(p, r, 1)`: first occurrence only. -/
def repOnce (p r : Str) : Str → Str
  | [] => []
  | c :: cs =>
    if isPref p (c :: cs) then r ++ (c :: cs).drop p.length
    else c :: repOnce p r cs

/-- Number of characters of `s` satisfying `f`. -/
def countP (f : Char → Bool) (s : Str) : Nat := (s.filter f).length

def joinL : List Str → Str
  | [] => []
  | x :: xs => x ++ joinL xs

/-- `" ".join`, used to present a token sequence as the space-separated
    string the source functions take. -/
def joinSp : List Str → Str
  | [] => []
  | [t] => t
  | t :: ts => t ++ (' ' :: joinSp ts)

/-! ### Phoneme table (src/jelou/arpabet_to_ipa.py, `ARPABET_TO_IPA`) -/

def arpaTable : List (Str × Str) := [
  (("AA").toList, ("ɑ").toList),
  (("AE").toList, ("æ").toList),
  (("AH").toList, ("ʌ").toList),
  (("AO").toList, ("ɔ").toList),
  (("AW").toList, ("aʊ").toList),
  (("AY").toList, ("aɪ").toList),
  (("EH").toList, ("ɛ").toList),
  (("ER").toList, ("ɝ").toList),
  (("EY").toList, ("eɪ").toList),
  (("IH").toList, ("ɪ").toList),
  (("IY").toList, ("i").toList),
  (("OW").toList, ("oʊ").toList),
  (("OY").toList, ("ɔɪ").toList),
  (("UH").toList, ("ʊ").toList),
  (("UW").toList, ("uː").toList),
  (("B").toList, ("b").toList),
  (("CH").toList, ("tʃ").toList),
  (("D").toList, ("d").toList),
  (("DH").toList, ("ð").toList),
  (("F").toList, ("f").toList),
  (("G").toList, ("g").toList),
  (("HH").toList, ("h").toList),
  (("JH").toList, ("dʒ").toList),
  (("K").toList, ("k").toList),
  (("L").toList, ("l").toList),
  (("M").toList, ("m").toList),
  (("N").toList, ("n").toList),
  (("NG").toList, ("ŋ").toList),
  (("P").toList, ("p").toList),
  (("R").toList, ("r").toList),
  (("S").toList, ("s").toList),
  (("SH").toList, ("ʃ").toList),
  (("T").toList, ("t").toList),
  (("TH").toList, ("θ").toList),
  (("V").toList, ("v").toList),
  (("W").toList, ("w").toList),
  (("Y").toList, ("j").toList),
  (("Z").toList, ("z").toList),
  (("ZH").toList, ("ʒ").toList)]

def lookupT (t : List (Str × Str)) (k : Str) : Option Str :=
  match t.find? (fun p => p.1 == k) with
  | some p => some p.2
  | none => none

/-- `STRESSED_VOWELS` from `arpabet_to_ipa` (src/jelou/arpabet_to_ipa.py). -/
def stressedVowels : List Str := [
  ("AA").toList, ("AE").toList, ("AH").toList, ("AO").toList, ("AW").toList,
  ("AY").toList, ("EH").toList, ("ER").toList, ("EY").toList, ("IH").toList,
  ("IY").toList, ("OW").toList, ("OY").toList, ("UH").toList, ("UW").toList]

/-! ### Internal markers -/

def SENT : Str := ("~~STRESS~~").toList
def MARKA : Str := ("~~A~~").toList
def MARKALOW : Str := ("~~a~~").toList
def TEMPJ : Str := ("~~~TEMP_J~~~").toList
def TEMPSH : Str := ("~~~TEMP_SH~~~").toList
def TEMPCH : Str := ("~~~TEMP_CH~~~").toList

/-! ### Rewrite engine tables (src/jelou/phonetic_engine.py)

`stressMapOrd` lists `STRESS_MAP` in the order Python's
`sorted(STRESS_MAP.items(), key=lambda x: -len(x[0]))` visits it: the stable
sort keeps insertion order within each key length, so the seven two-character
keys come first, in insertion order, then the nine one-character keys. -/

def stressMapOrd : List (Str × Str) := [
  (("aʊ").toList, ("áu").toList),
  (("aɪ").toList, ("ái").toList),
  (("eɪ").toList, ("éi").toList),
  (("oʊ").toList, ("óu").toList),
  (("ɔɪ").toList, ("ói").toList),
  (("iː").toList, ("í").toList),
  (("uː").toList, ("ú").toList),
  (("ɑ").toList, ("á").toList),
  (("æ").toList, ("á").toList),
  (("ʌ").toList, ("á").toList),
  (("ɔ").toList, ("ó").toList),
  (("ɛ").toList, ("é").toList),
  (("ɝ").toList, ("ér").toList),
  (("ɪ").toList, ("í").toList),
  (("i").toList, ("í").toList),
  (("ʊ").toList, ("ú").toList)]

def compoundRules : List (Str × Str) := [
  (("aɪər").toList, ("air").toList),
  (("aʊər").toList, ("aur").toList),
  (("dʒ").toList, ("y").toList),
  (("tʃ").toList, ("ch").toList),
  (("θ").toList, ("z").toList),
  (("ð").toList, ("d").toList),
  (("ʃ").toList, ("sh").toList),
  (("ʒ").toList, ("sh").toList),
  (("eər").toList, ("er").toList)]

def vowelRules : List (Str × Str) := [
  (("iː").toList, ("í").toList),
  (("ɪ").toList, ("i").toList),
  (("ɛ").toList, ("e").toList),
  (("æ").toList, ("a").toList),
  (("ɑ").toList, ("a").toList),
  (("ʌ").toList, ("a").toList),
  (("e").toList, ("e").toList),
  (("ə").toList, ("a").toList),
  (("ɔ").toList, ("o").toList),
  (("ʊ").toList, ("u").toList),
  (("aʊ").toList, ("au").toList),
  (("oʊ").toList, ("ou").toList),
  (("uː").toList, ("ú").toList),
  (("ɝ").toList, ("er").toList),
  (("ɚ").toList, ("er").toList)]

def consonantRules : List (Str × Str) := [
  (("h").toList, ("j").toList),
  (("ŋ").toList, ("ng").toList),
  (("k").toList, ("k").toList),
  (("s").toList, ("s").toList),
  (("z").toList, ("z").toList),
  (("w").toList, ("w").toList),
  (("r").toList, ("r").toList),
  (("l").toList, ("l").toList),
  (("n").toList, ("n").toList),
  (("m").toList, ("m").toList),
  (("f").toList, ("f").toList),
  (("v").toList, ("v").toList),
  (("b").toList, ("b").toList),
  (("p").toList, ("p").toList),
  (("t").toList, ("t").toList),
  (("d").toList, ("d").toList),
  (("g").toList, ("g").toList)]

def applyRules (rules : List (Str × Str)) (s : Str) : Str :=
  rules.foldl (fun acc pr => replaceAll pr.1 pr.2 acc) s

def stressPairs : List (Str × Str) :=
  stressMapOrd.map (fun pr => (SENT ++ pr.1, MARKA ++ pr.2))

def vocalsList : Str := ("aeiouáéíóú").toList

/-- One iteration of the word-final `vocal + "y"` correction loop
    (`result = result[:-1] + "sh"`). -/
def vocalYStep (acc : Str) (v : Char) : Str :=
  if endsW [v, 'y'] acc then acc.dropLast ++ ('s' :: ['h']) else acc

/-- Steps 2–11 of `ipa_to_spanish` (everything after the `STRESS_MAP`
    loop), split out so the two stages can be reasoned about separately. -/
def afterStress (r1 : Str) : Str :=
  let r2 := replaceAll SENT [] r1
  let r3 := lowerStr r2
  let r4 := replaceAll [('ˈ')] [] r3
  let r5 := replaceAll [('ˌ')] [] r4
  let r6 := replaceAll [('j')] TEMPJ r5
  let r7 := applyRules compoundRules r6
  let r8 := replaceAll (("sh").toList) TEMPSH r7
  let r9 := replaceAll (("ch").toList) TEMPCH r8
  let r10 := applyRules vowelRules r9
  let r11 := applyRules consonantRules r10
  let r12 := replaceAll TEMPJ [('i')] r11
  let r13 := replaceAll TEMPSH (("sh").toList) r12
  let r14 := replaceAll TEMPCH (("ch").toList) r13
  let r15 := vocalsList.foldl vocalYStep r14
  let r16 := replaceAll (("pj").toList) (("pi").toList) r15
  let r17 := replaceAll (("ngk").toList) (("nk").toList) r16
  let r18 := replaceAll (("ngg").toList) (("ng").toList) r17
  let r19 := replaceAll (("íi").toList) (("íe").toList) r18
  let r20 := replaceAll (("ii").toList) (("ie").toList) r19
  replaceAll MARKALOW [] r20

/-- `ipa_to_spanish` from src/jelou/phonetic_engine.py: the ordered
    `STRESS_MAP` replacements followed by the remaining phases. -/
def ipaToSpanish (ipa : Str) : Str := afterStress (applyRules stressPairs ipa)

/-- A character every phase of `afterStress` lets through: fixed by
    lowercasing, distinct from all pattern characters it could be consumed
    by (or reproduced by the corresponding replacement). -/
def tailSafeChar (c : Char) : Bool :=
  decide (lowerChar c = c ∧ c ≠ 'y' ∧ c ≠ 'j' ∧ c ≠ 'ˈ' ∧ c ≠ 'ˌ' ∧
    c ∉ SENT ∧ c ∉ TEMPJ ∧ c ∉ TEMPSH ∧ c ∉ TEMPCH ∧
    (∀ pr ∈ compoundRules, c ∉ pr.1 ∨ c ∈ pr.2) ∧
    (∀ pr ∈ vowelRules, c ∉ pr.1 ∨ c ∈ pr.2) ∧
    (∀ pr ∈ consonantRules, c ∉ pr.1 ∨ c ∈ pr.2) ∧
    c ∉ ("sh").toList ∧ c ∉ ("ch").toList ∧ c ∉ ("pj").toList ∧
    c ∉ ("ngk").toList ∧ c ∉ ("ngg").toList ∧
    (c ∉ ("íi").toList ∨ c ∈ ("íe").toList) ∧ c ∉ ("ii").toList ∧
    c ∉ MARKALOW)

/-! ### ARPABET → IPA (src/jelou/arpabet_to_ipa.py) -/

/-- The condition of the primary-stress scan: non-empty token whose last
    character is `1` and whose digit-stripped text is a stressed vowel. -/
def isPrimTok (t : Str) : Bool :=
  (!t.isEmpty) && (t.getLastD ' ' == '1') && (stressedVowels.contains (stripD t))

/-- The index-tracking loop that records the last primary-stressed vowel. -/
def lastPrimAux : Nat → Option Nat → List Str → Option Nat
  | _, acc, [] => acc
  | i, acc, t :: ts => lastPrimAux (i + 1) (if isPrimTok t then some i else acc) ts

def lastPrimaryIdx (ts : List Str) : Option Nat := lastPrimAux 0 none ts

/-- The per-token emission loop of `arpabet_to_ipa`: table hit emits the IPA
    symbol (with the stress sentinel at the chosen index), miss emits the
    digit-stripped token lowercased. -/
def emitFrom (idx : Option Nat) : Nat → List Str → Str
  | _, [] => []
  | i, t :: ts =>
    (match lookupT arpaTable (stripD t) with
     | some sym => if idx = some i then SENT ++ sym else sym
     | none => lowerStr (stripD t)) ++ emitFrom idx (i + 1) ts

/-- The symbol emitted for one token when it is not the stressed one: the
    phoneme-table entry, or the lowercased digit-stripped literal. -/
def chunkOf (t : Str) : Str :=
  match lookupT arpaTable (stripD t) with
  | some sym => sym
  | none => lowerStr (stripD t)

/-- Concatenation of the per-token symbols. -/
def joinChunks (ts : List Str) : Str := joinL (ts.map chunkOf)

/-- `arpabet_to_ipa` from src/jelou/arpabet_to_ipa.py. -/
def arpabetToIpa (s : Str) : Str :=
  if s.isEmpty then []
  else
    emitFrom (lastPrimaryIdx (words (upperStr s))) 0 (words (upperStr s))

/-- `arpabet_to_ipa_clean`. -/
def arpabetToIpaClean (s : Str) : Str := replaceAll SENT [] (arpabetToIpa s)

/-! ### CMU dictionary loading (src/jelou/cmu_dictionary.py) -/

/-- `CMUDictionary._score_variant`: `(count of "HH", count of "AH0")`. -/
def scoreVariant (arp : Str) : Nat × Nat :=
  (((words (upperStr arp)).filter (fun t => t == ("HH").toList)).length,
   ((words (upperStr arp)).filter (fun t => t == ("AH0").toList)).length)

/-- Python tuple `<` on pairs (lexicographic, strict). -/
def tupLt (a b : Nat × Nat) : Bool :=
  decide (a.1 < b.1 ∨ (a.1 = b.1 ∧ a.2 < b.2))

structure LoadState where
  dict : List (Str × Str)
  cache : List (Str × Str)

/-- One iteration of the `_load_from_file` loop.  Plain lines store
    unconditionally; `WORD(N)`-variant lines replace the stored entry exactly
    when their score is strictly lower than the cached current variant's.
    (Newest binding is consed to the front; `lookupT` finds it first, which
    models Python dict assignment.) -/
def processLine (st : LoadState) (line0 : Str) : LoadState :=
  let line := strip line0
  if line.isEmpty then st
  else if isPref ((";;;").toList) line then st
  else
    match split2 line with
    | none => st
    | some (wraw, arp) =>
      let word := lowerStr (wraw.takeWhile (fun c => !(c == '(')))
      if !(wraw.contains '(') then
        ⟨(word, arpabetToIpa arp) :: st.dict, (word, arp) :: st.cache⟩
      else
        if tupLt (scoreVariant arp) (scoreVariant ((lookupT st.cache word).getD [])) then
          ⟨(word, arpabetToIpa arp) :: st.dict, (word, arp) :: st.cache⟩
        else st

/-- `CMUDictionary._load_from_file`, over a given list of lines. -/
def loadFromLines (ls : List Str) : List (Str × Str) :=
  (ls.foldl processLine ⟨[], []⟩).dict

/-- `CMUDictionary.lookup`: lowercased key, stress markers stripped, `None`
    for missing or empty (falsy) entries. -/
def lookupClean (d : List (Str × Str)) (w : Str) : Option Str :=
  match lookupT d (lowerStr w) with
  | some r => if r.isEmpty then none else some (replaceAll SENT [] r)
  | none => none

/-! ### Public API (src/jelou/jelou_api.py) -/

structure TWResult where
  word : Str
  ipa : Option Str
  spanish : Option Str
  found : Bool

/-- Python truthiness of the `Optional[str]` returned by the lookups. -/
def truthy : Option Str → Bool
  | some s => !s.isEmpty
  | none => false

/-- `translate_word`, parameterised by the loaded dictionary contents. -/
def translateWord (d : List (Str × Str)) (w : Str) : TWResult :=
  let ipaS := lookupT d (lowerStr w)
  if truthy ipaS then
    ⟨w, lookupClean d w, some (ipaToSpanish (ipaS.getD [])), true⟩
  else
    ⟨w, none, none, false⟩

/-- `translate_ipa` from src/jelou/jelou_api.py. -/
def translateIpa (ipa : Str) : Str :=
  if containsSub (("ˈ").toList) ipa then
    ipaToSpanish (replaceAll (("ˈ").toList) SENT ipa)
  else if containsSub (("iː").toList) ipa then
    ipaToSpanish (repOnce (("iː").toList) (SENT ++ ("iː").toList) ipa)
  else if containsSub (("uː").toList) ipa then
    ipaToSpanish (repOnce (("uː").toList) (SENT ++ ("uː").toList) ipa)
  else ipaToSpanish ipa

/-! ### Derived notions used in the statements -/

/-- The accented Spanish vowels — the "accent marks" of the final output. -/
def accentChar (c : Char) : Bool :=
  (c == 'á') || (c == 'é') || (c == 'í') || (c == 'ó') || (c == 'ú')

def accentCount (s : Str) : Nat := countP accentChar s

/-- `tokens.count(tok)` on the upper-split token list of an ARPABET string. -/
def countTok (arp : Str) (tok : Str) : Nat :=
  ((words (upperStr arp)).filter (fun t => t == tok)).length

/-- The ARPABET keys of the phoneme table. -/
def arpaKeys : List Str := arpaTable.map (fun p => p.1)

/-- A token drawn from the closed source alphabet: its digit-stripped text is
    a phoneme-table key (the trailing characters removed by `stripD` are
    stress digits by construction). -/
def validToken (t : Str) : Bool := arpaKeys.contains (stripD t)

/-- Tokens whose phoneme is `UW` (the one long-`u` vowel, whose unstressed
    mapping `uː` is itself rewritten to an accented vowel). -/
def isUWTok (t : Str) : Bool := stripD t == ("UW").toList

/-- Number of primary-stress-tagged vowel tokens of a sequence. -/
def primVowelCount (ts : List Str) : Nat := (ts.filter isPrimTok).length

/-! ### Spec-side definitions

The following definitions are written from the specification's words, not
from the source; each is compared against the source-derived definition in a
theorem. -/

/-- Spec 4.2: a "vowel token tagged primary" — the digit-stripped token is a
    vowel and the token carries the trailing primary-stress tag `1`. -/
def specPrimVowel (t : Str) : Bool :=
  (stressedVowels.contains (stripD t)) && endsW [('1')] t

/-- Spec 4.2: "record the index of every vowel token tagged primary". -/
def recordedIdxs : List Str → List Nat
  | [] => []
  | t :: ts =>
    (if specPrimVowel t then [0] else []) ++ (recordedIdxs ts).map (· + 1)

/-- Spec 4.2: "the chosen stress index is the last recorded one". -/
def specStressIndex (ts : List Str) : Option Nat := (recordedIdxs ts).getLast?

/-- Claim C2's scoring: "a fixed-size tuple of three counts: occurrences of a
    mutable/silent consonant (`HH`), occurrences of a first reduced vowel
    class (`AH0`), occurrences of a second reduced vowel class (`IH0`)". -/
def claimScore3 (arp : Str) : Nat × Nat × Nat :=
  (countTok arp (("HH").toList), countTok arp (("AH0").toList),
   countTok arp (("IH0").toList))

/-- Strict lexicographic comparison of the claim's three-count tuples. -/
def lex3Lt (a b : Nat × Nat × Nat) : Bool :=
  decide (a.1 < b.1 ∨ (a.1 = b.1 ∧
    (a.2.1 < b.2.1 ∨ (a.2.1 = b.2.1 ∧ a.2.2 < b.2.2))))

/-! ### Corpus-line builders and the clean selection fold (for C1/C2) -/

/-- A baseline corpus line `WORD  TOKENS`. -/
def mkBaseLine (w arp : Str) : Str := w ++ (' ' :: ' ' :: arp)

/-- A numbered-alternate corpus line `WORD(2)  TOKENS` (the loader only tests
    for the presence of `(`, never the number). -/
def mkVarLine (w arp : Str) : Str := w ++ (("(2)  ").toList ++ arp)

def mkLines (w b : Str) (vs : List Str) : List Str :=
  mkBaseLine w b :: vs.map (mkVarLine w)

/-- The selection rule of `_load_from_file`, as a clean fold: the baseline
    seeds the result, and each alternate in corpus order replaces it exactly
    when its score is strictly lower. -/
def selectVariant (b : Str) (vs : List Str) : Str :=
  vs.foldl (fun cur v => if tupLt (scoreVariant v) (scoreVariant cur) then v else cur) b

/-- Well-formed corpus word: non-empty, uppercase ASCII letters only. -/
def wfWord (w : Str) : Bool :=
  (!w.isEmpty) && w.all (fun c => decide ('A' ≤ c ∧ c ≤ 'Z'))

/-- Well-formed ARPABET field: non-empty, no leading/trailing blank, over
    uppercase letters, digits and single spaces. -/
def wfArp (a : Str) : Bool :=
  (!a.isEmpty) && (!wsChar (a.headD 'A')) && (!wsChar (a.getLastD 'A')) &&
    a.all (fun c => (c == ' ') || decide ('A' ≤ c ∧ c ≤ 'Z') ||
      decide ('0' ≤ c ∧ c ≤ '9'))

/-! ### Character guards for the universal engine claims -/

/-- Final-output alphabet on which every rewrite phase is the identity:
    plain lowercase letters other than `h` and `j`, plus the accented
    vowels. -/
def idemChar (c : Char) : Bool :=
  (decide ('a' ≤ c ∧ c ≤ 'z') && !(c == 'h') && !(c == 'j')) || accentChar c

/-- Guard for the amended idempotence claim: output over `idemChar`, free of
    the final-cleanup patterns, not ending in vowel + `y`. -/
def idemSafe (s : Str) : Bool :=
  s.all idemChar &&
  !containsSub (("ngk").toList) s &&
  !containsSub (("ngg").toList) s &&
  !containsSub (("íi").toList) s &&
  !containsSub (("ii").toList) s &&
  vocalsList.all (fun v => !endsW [v, 'y'] s)

/-- The intermediate-alphabet characters accepted by the direct-notation
    entry point (lowercase ASCII plus the IPA symbols of the tables; no
    uppercase, no `~`). -/
def directChar (c : Char) : Bool :=
  decide ('a' ≤ c ∧ c ≤ 'z') ||
  (c == 'ɑ') || (c == 'æ') || (c == 'ʌ') || (c == 'ɔ') || (c == 'ɛ') ||
  (c == 'ɝ') || (c == 'ɚ') || (c == 'ɪ') || (c == 'ʊ') || (c == 'ə') ||
  (c == 'ʃ') || (c == 'ʒ') || (c == 'θ') || (c == 'ð') || (c == 'ŋ') ||
  (c == 'ː') || (c == 'ˌ')

/-! ## Theorems -/

/-! ### Infrastructure: prefixes, substrings, replacement -/

@[simp] theorem isPref_nil (s : Str) : isPref [] s = true := rfl

@[simp] theorem isPref_cons_nil (p : Char) (ps : Str) :
    isPref (p :: ps) [] = false := rfl

@[simp] theorem isPref_cons_cons (p c : Char) (ps cs : Str) :
    isPref (p :: ps) (c :: cs) = ((p == c) && isPref ps cs) := rfl

theorem isPref_iff_exists {p s : Str} :
    isPref p s = true ↔ ∃ t, s = p ++ t := by
  induction p generalizing s with
  | nil => simp
  | cons a ps ih =>
    cases s with
    | nil => simp
    | cons c cs =>
      simp only [isPref_cons_cons, Bool.and_eq_true, beq_iff_eq, ih,
        List.cons_append, List.cons.injEq]
      constructor
      · rintro ⟨rfl, t, rfl⟩; exact ⟨t, rfl, rfl⟩
      · rintro ⟨t, rfl, rfl⟩; exact ⟨rfl, t, rfl⟩

theorem isPref_append_self (p t : Str) : isPref p (p ++ t) = true :=
  isPref_iff_exists.2 ⟨t, rfl⟩

theorem mem_of_isPref {p s : Str} {c : Char} (h : isPref p s = true)
    (hc : c ∈ p) : c ∈ s := by
  rcases isPref_iff_exists.1 h with ⟨t, rfl⟩
  exact List.mem_append_left t hc

@[simp] theorem containsSub_nil (p : Str) : containsSub p [] = isPref p [] := rfl

@[simp] theorem containsSub_cons (p : Str) (c : Char) (cs : Str) :
    containsSub p (c :: cs) = (isPref p (c :: cs) || containsSub p cs) := rfl

theorem containsSub_eq_false_of_mem_not_mem {p s : Str} {c : Char}
    (hcp : c ∈ p) (hcs : c ∉ s) : containsSub p s = false := by
  induction s with
  | nil =>
    cases p with
    | nil => cases hcp
    | cons a ps => rfl
  | cons d ds ih =>
    have hds : c ∉ ds := fun h => hcs (List.mem_cons_of_mem d h)
    have h1 : isPref p (d :: ds) = false := by
      cases hp : isPref p (d :: ds) with
      | false => rfl
      | true => exact absurd (mem_of_isPref hp hcp) hcs
    simp [h1, ih hds]

theorem containsSub_ne_nil {p s : Str} (hp : p ≠ []) (h : containsSub p s = true) :
    ∃ a b, s = a ++ p ++ b := by
  induction s with
  | nil =>
    cases p with
    | nil => exact absurd rfl hp
    | cons a ps => simp at h
  | cons d ds ih =>
    rcases Bool.or_eq_true_iff.1 h with h1 | h2
    · rcases isPref_iff_exists.1 h1 with ⟨t, ht⟩
      exact ⟨[], t, by simp [ht]⟩
    · rcases ih h2 with ⟨a, b, hab⟩
      exact ⟨d :: a, b, by simp [hab]⟩

@[simp] theorem repAux_nil (p r : Str) (k : Nat) : repAux p r k [] = [] := by
  cases k <;> rfl

theorem repAux_succ (p r : Str) (k : Nat) (c : Char) (cs : Str) :
    repAux p r (k + 1) (c :: cs) = repAux p r k cs := rfl

theorem repAux_zero_pos {p : Str} (r : Str) {c : Char} {cs : Str}
    (h : isPref p (c :: cs) = true) :
    repAux p r 0 (c :: cs) = r ++ repAux p r (p.length - 1) cs := by
  simp [repAux, h]

theorem repAux_zero_neg {p : Str} (r : Str) {c : Char} {cs : Str}
    (h : isPref p (c :: cs) = false) :
    repAux p r 0 (c :: cs) = c :: repAux p r 0 cs := by
  simp [repAux, h]

theorem repAux_skip (p r : Str) (xs b : Str) :
    repAux p r xs.length (xs ++ b) = repAux p r 0 b := by
  induction xs with
  | nil => rfl
  | cons x xs ih =>
    show repAux p r (xs.length + 1) (x :: (xs ++ b)) = repAux p r 0 b
    rw [repAux_succ]
    exact ih

theorem replaceAll_nil (p r : Str) : replaceAll p r [] = [] := rfl

theorem replaceAll_fire {p : Str} (r : Str) (b : Str) (hp : p ≠ []) :
    replaceAll p r (p ++ b) = r ++ replaceAll p r b := by
  cases p with
  | nil => exact absurd rfl hp
  | cons a ps =>
    show repAux (a :: ps) r 0 (a :: (ps ++ b)) = r ++ repAux (a :: ps) r 0 b
    rw [repAux_zero_pos r (by simpa using isPref_append_self (a :: ps) b)]
    have : (a :: ps).length - 1 = ps.length := by simp
    rw [this, repAux_skip]

theorem replaceAll_no_match {p r s : Str} (h : containsSub p s = false) :
    replaceAll p r s = s := by
  induction s with
  | nil => rfl
  | cons c cs ih =>
    simp only [containsSub_cons, Bool.or_eq_false_iff] at h
    show repAux p r 0 (c :: cs) = c :: cs
    rw [repAux_zero_neg r h.1]
    exact congrArg (c :: ·) (ih h.2)

theorem replaceAll_append_head {hp : Char} {pt : Str} (r : Str) {a : Str}
    (b : Str) (ha : hp ∉ a) :
    replaceAll (hp :: pt) r (a ++ b) = a ++ replaceAll (hp :: pt) r b := by
  induction a with
  | nil => rfl
  | cons x xs ih =>
    have hx : hp ≠ x := fun h => ha (h ▸ List.mem_cons_self x xs)
    show repAux (hp :: pt) r 0 (x :: (xs ++ b)) = x :: (xs ++ replaceAll (hp :: pt) r b)
    rw [repAux_zero_neg r (by simp [hx])]
    exact congrArg (x :: ·) (ih (fun h => ha (List.mem_cons_of_mem x h)))

/-! ### Infrastructure: character counting -/

@[simp] theorem countP_nil (f : Char → Bool) : countP f [] = 0 := rfl

theorem countP_cons (f : Char → Bool) (c : Char) (s : Str) :
    countP f (c :: s) = (if f c then 1 else 0) + countP f s := by
  by_cases h : f c <;> simp [countP, List.filter_cons, h, Nat.add_comm]

theorem countP_append (f : Char → Bool) (a b : Str) :
    countP f (a ++ b) = countP f a + countP f b := by
  simp [countP, List.filter_append]

theorem countP_replaceAll {p r : Str} (f : Char → Bool) (s : Str) (hp : p ≠ [])
    (hpr : countP f p = countP f r) :
    countP f (replaceAll p r s) = countP f s := by
  generalize hn : s.length = n
  induction n using Nat.strong_induction_on generalizing s with
  | _ n ih =>
    cases s with
    | nil => rfl
    | cons c cs =>
      by_cases h : isPref p (c :: cs) = true
      · rcases isPref_iff_exists.1 h with ⟨t, ht⟩
        rw [ht, replaceAll_fire r t hp, countP_append, countP_append]
        have hlt : t.length < n := by
          subst hn; rw [ht, List.length_append]
          cases p with
          | nil => exact absurd rfl hp
          | cons a ps => simp
        rw [ih t.length hlt t rfl, hpr]
      · rw [show replaceAll p r (c :: cs) = c :: replaceAll p r cs from
          repAux_zero_neg r (Bool.eq_false_iff.2 h)]
        rw [countP_cons, countP_cons]
        have hlt : cs.length < n := by subst hn; simp
        rw [ih cs.length hlt cs rfl]

theorem mem_replaceAll {p r : Str} {c : Char} (s : Str) (hp : p ≠ [])
    (hcr : c ∉ p ∨ c ∈ r) (hcs : c ∈ s) : c ∈ replaceAll p r s := by
  generalize hn : s.length = n
  induction n using Nat.strong_induction_on generalizing s with
  | _ n ih =>
    cases s with
    | nil => cases hcs
    | cons d ds =>
      by_cases h : isPref p (d :: ds) = true
      · rcases isPref_iff_exists.1 h with ⟨t, ht⟩
        rw [ht, replaceAll_fire r t hp]
        rw [ht] at hcs
        rcases List.mem_append.1 hcs with hcp | hct
        · rcases hcr with hnp | hr
          · exact absurd hcp hnp
          · exact List.mem_append_left _ hr
        · have hlt : t.length < n := by
            subst hn; rw [ht, List.length_append]
            cases p with
            | nil => exact absurd rfl hp
            | cons a ps => simp
          exact List.mem_append_right _ (ih t.length hlt t hct rfl)
      · rw [show replaceAll p r (d :: ds) = d :: replaceAll p r ds from
          repAux_zero_neg r (Bool.eq_false_iff.2 h)]
        rcases List.mem_cons.1 hcs with rfl | hds
        · exact List.mem_cons_self _ _
        · have hlt : ds.length < n := by subst hn; simp
          exact List.mem_cons_of_mem _ (ih ds.length hlt ds hds rfl)

theorem not_mem_replaceAll {p r : Str} {c : Char} (s : Str) (hp : p ≠ [])
    (hcr : c ∉ r) (hcs : c ∉ s) : c ∉ replaceAll p r s := by
  generalize hn : s.length = n
  induction n using Nat.strong_induction_on generalizing s with
  | _ n ih =>
    cases s with
    | nil => exact hcs
    | cons d ds =>
      by_cases h : isPref p (d :: ds) = true
      · rcases isPref_iff_exists.1 h with ⟨t, ht⟩
        rw [ht, replaceAll_fire r t hp]
        intro hmem
        rcases List.mem_append.1 hmem with hr | hres
        · exact hcr hr
        · have hct : c ∉ t := fun hct =>
            hcs (ht ▸ List.mem_append_right p hct)
          have hlt : t.length < n := by
            subst hn; rw [ht, List.length_append]
            cases p with
            | nil => exact absurd rfl hp
            | cons a ps => simp
          exact ih t.length hlt t hct rfl hres
      · rw [show replaceAll p r (d :: ds) = d :: replaceAll p r ds from
          repAux_zero_neg r (Bool.eq_false_iff.2 h)]
        intro hmem
        rcases List.mem_cons.1 hmem with rfl | hres
        · exact hcs (List.mem_cons_self _ _)
        · have hds : c ∉ ds := fun hh => hcs (List.mem_cons_of_mem _ hh)
          have hlt : ds.length < n := by subst hn; simp
          exact ih ds.length hlt ds hds rfl hres

theorem replaceAll_self (p s : Str) (hp : p ≠ []) : replaceAll p p s = s := by
  generalize hn : s.length = n
  induction n using Nat.strong_induction_on generalizing s with
  | _ n ih =>
    cases s with
    | nil => rfl
    | cons c cs =>
      by_cases h : isPref p (c :: cs) = true
      · rcases isPref_iff_exists.1 h with ⟨t, ht⟩
        rw [ht, replaceAll_fire p t hp]
        have hlt : t.length < n := by
          subst hn; rw [ht, List.length_append]
          cases p with
          | nil => exact absurd rfl hp
          | cons a ps => simp
        rw [ih t.length hlt t rfl]
      · rw [show replaceAll p p (c :: cs) = c :: replaceAll p p cs from
          repAux_zero_neg p (Bool.eq_false_iff.2 h)]
        have hlt : cs.length < n := by subst hn; simp
        rw [ih cs.length hlt cs rfl]

/-! ### Infrastructure: rule lists -/

@[simp] theorem applyRules_nil (s : Str) : applyRules [] s = s := rfl

@[simp] theorem applyRules_cons (pr : Str × Str) (R : List (Str × Str)) (s : Str) :
    applyRules (pr :: R) s = applyRules R (replaceAll pr.1 pr.2 s) := rfl

theorem applyRules_append (R₁ R₂ : List (Str × Str)) (s : Str) :
    applyRules (R₁ ++ R₂) s = applyRules R₂ (applyRules R₁ s) := by
  simp [applyRules, List.foldl_append]

theorem applyRules_id_of_steps {R : List (Str × Str)} {s : Str}
    (h : ∀ pr ∈ R, replaceAll pr.1 pr.2 s = s) : applyRules R s = s := by
  induction R with
  | nil => rfl
  | cons pr R ih =>
    rw [applyRules_cons, h pr (List.mem_cons_self _ _)]
    exact ih (fun q hq => h q (List.mem_cons_of_mem _ hq))

theorem applyRules_id_of_char {R : List (Str × Str)} {s : Str} {c : Char}
    (hR : ∀ pr ∈ R, c ∈ pr.1) (hs : c ∉ s) : applyRules R s = s :=
  applyRules_id_of_steps (fun pr hpr =>
    replaceAll_no_match (containsSub_eq_false_of_mem_not_mem (hR pr hpr) hs))

theorem countP_applyRules {R : List (Str × Str)} (f : Char → Bool) (s : Str)
    (hR : ∀ pr ∈ R, pr.1 ≠ [] ∧ countP f pr.1 = countP f pr.2) :
    countP f (applyRules R s) = countP f s := by
  induction R generalizing s with
  | nil => rfl
  | cons pr R ih =>
    rw [applyRules_cons, ih _ (fun q hq => hR q (List.mem_cons_of_mem _ hq))]
    exact countP_replaceAll f s (hR pr (List.mem_cons_self _ _)).1
      (hR pr (List.mem_cons_self _ _)).2

theorem mem_applyRules {R : List (Str × Str)} {c : Char} (s : Str)
    (hR : ∀ pr ∈ R, pr.1 ≠ [] ∧ (c ∉ pr.1 ∨ c ∈ pr.2)) (hs : c ∈ s) :
    c ∈ applyRules R s := by
  induction R generalizing s with
  | nil => exact hs
  | cons pr R ih =>
    rw [applyRules_cons]
    exact ih _ (fun q hq => hR q (List.mem_cons_of_mem _ hq))
      (mem_replaceAll s (hR pr (List.mem_cons_self _ _)).1
        (hR pr (List.mem_cons_self _ _)).2 hs)

theorem not_mem_applyRules {R : List (Str × Str)} {c : Char} (s : Str)
    (hR : ∀ pr ∈ R, pr.1 ≠ [] ∧ c ∉ pr.2) (hs : c ∉ s) :
    c ∉ applyRules R s := by
  induction R generalizing s with
  | nil => exact hs
  | cons pr R ih =>
    rw [applyRules_cons]
    exact ih _ (fun q hq => hR q (List.mem_cons_of_mem _ hq))
      (not_mem_replaceAll s (hR pr (List.mem_cons_self _ _)).1
        (hR pr (List.mem_cons_self _ _)).2 hs)

/-! ### Infrastructure: corpus-line parsing -/

theorem lookupT_cons_self (k x : Str) (l : List (Str × Str)) :
    lookupT ((k, x) :: l) k = some x := by
  simp [lookupT, List.find?]

theorem takeWhile_append_stop {p : Char → Bool} {w : Str}
    (hw : ∀ c ∈ w, p c = true) {c : Char} (hc : p c = false) (rest : Str) :
    (w ++ c :: rest).takeWhile p = w := by
  induction w with
  | nil => simp [List.takeWhile_cons, hc]
  | cons x xs ih =>
    simp only [List.cons_append, List.takeWhile_cons,
      hw x (List.mem_cons_self _ _), if_true]
    rw [ih (fun d hd => hw d (List.mem_cons_of_mem _ hd))]

theorem dropWhile_append_stop {p : Char → Bool} {w : Str}
    (hw : ∀ c ∈ w, p c = true) {c : Char} (hc : p c = false) (rest : Str) :
    (w ++ c :: rest).dropWhile p = c :: rest := by
  induction w with
  | nil => simp [List.dropWhile_cons, hc]
  | cons x xs ih =>
    simp only [List.cons_append, List.dropWhile_cons,
      hw x (List.mem_cons_self _ _), if_true]
    exact ih (fun d hd => hw d (List.mem_cons_of_mem _ hd))

theorem takeWhile_eq_self {p : Char → Bool} {w : Str}
    (hw : ∀ c ∈ w, p c = true) : w.takeWhile p = w := by
  induction w with
  | nil => rfl
  | cons x xs ih =>
    simp only [List.takeWhile_cons, hw x (List.mem_cons_self _ _), if_true]
    rw [ih (fun d hd => hw d (List.mem_cons_of_mem _ hd))]

theorem strip_eq_self {s : Str} (h0 : s ≠ [])
    (hh : wsChar (s.headD ' ') = false) (hl : wsChar (s.getLastD ' ') = false) :
    strip s = s := by
  unfold strip
  have h1 : s.dropWhile (fun c => wsChar c) = s := by
    cases s with
    | nil => rfl
    | cons c cs =>
      have : wsChar c = false := hh
      simp [List.dropWhile_cons, this]
  rw [h1]
  rcases List.eq_nil_or_concat s with rfl | ⟨xs, x, rfl⟩
  · exact absurd rfl h0
  · rw [List.concat_eq_append] at hl ⊢
    rw [List.getLastD_concat] at hl
    rw [List.reverse_concat]
    simp [List.dropWhile_cons, hl]

theorem wfWord_spec {w : Str} (h : wfWord w = true) :
    w ≠ [] ∧ ∀ c ∈ w, ('A' ≤ c ∧ c ≤ 'Z') := by
  unfold wfWord at h
  rw [Bool.and_eq_true, List.all_eq_true] at h
  constructor
  · intro hnil; subst hnil; simp at h
  · exact fun c hc => of_decide_eq_true (h.2 c hc)

theorem wfArp_spec {a : Str} (h : wfArp a = true) :
    a ≠ [] ∧ wsChar (a.headD 'A') = false ∧ wsChar (a.getLastD 'A') = false := by
  unfold wfArp at h
  simp only [Bool.and_eq_true, Bool.not_eq_true'] at h
  obtain ⟨⟨⟨h1, h2⟩, h3⟩, _⟩ := h
  refine ⟨?_, h2, h3⟩
  intro hnil; subst hnil; simp at h1

theorem wsChar_false_of_ge_A {c : Char} (h1 : 'A' ≤ c) : wsChar c = false := by
  unfold wsChar
  have hs : c ≠ ' ' := fun hh => absurd (hh ▸ h1) (by decide)
  have ht : c ≠ '\t' := fun hh => absurd (hh ▸ h1) (by decide)
  have hn : c ≠ '\n' := fun hh => absurd (hh ▸ h1) (by decide)
  have hr : c ≠ '\r' := fun hh => absurd (hh ▸ h1) (by decide)
  simp [hs, ht, hn, hr]

theorem ne_paren_of_ge_A {c : Char} (h1 : 'A' ≤ c) : (c == '(') = false := by
  have : c ≠ '(' := fun hh => absurd (hh ▸ h1) (by decide)
  simp [this]

theorem contains_paren_false {w : Str}
    (hwc : ∀ c ∈ w, 'A' ≤ c ∧ c ≤ 'Z') : w.contains '(' = false := by
  induction w with
  | nil => rfl
  | cons c cs ih =>
    rw [List.contains_cons]
    have h1 : ('(' == c) = false := by
      have : '(' ≠ c := fun hh =>
        absurd (hh ▸ (hwc c (List.mem_cons_self _ _)).1) (by decide)
      simp [this]
    rw [h1, ih (fun d hd => hwc d (List.mem_cons_of_mem _ hd))]
    rfl

theorem contains_append_paren (w t : Str) :
    (w ++ '(' :: t).contains '(' = true := by
  induction w with
  | nil => rw [List.nil_append, List.contains_cons]; simp
  | cons x xs ih =>
    rw [List.cons_append, List.contains_cons, ih]
    exact Bool.or_true _

theorem getLastD_append_right {a : Str} (x : Str) {d : Char} (h : a ≠ []) :
    (x ++ a).getLastD d = a.getLastD d := by
  rcases List.eq_nil_or_concat a with rfl | ⟨xs, y, rfl⟩
  · exact absurd rfl h
  · rw [List.concat_eq_append, ← List.append_assoc, List.getLastD_concat,
      List.getLastD_concat]

theorem getLastD_default_irrel {a : Str} (h : a ≠ []) (d d' : Char) :
    a.getLastD d = a.getLastD d' := by
  rcases List.eq_nil_or_concat a with rfl | ⟨xs, y, rfl⟩
  · exact absurd rfl h
  · rw [List.concat_eq_append, List.getLastD_concat, List.getLastD_concat]

theorem processLine_base {w b : Str} (st : LoadState)
    (hw : wfWord w = true) (hb : wfArp b = true) :
    processLine st (mkBaseLine w b) =
      ⟨(lowerStr w, arpabetToIpa b) :: st.dict, (lowerStr w, b) :: st.cache⟩ := by
  obtain ⟨hwne, hwc⟩ := wfWord_spec hw
  obtain ⟨hbne, hbh, hbl⟩ := wfArp_spec hb
  obtain ⟨c0, w', rfl⟩ := List.exists_cons_of_ne_nil hwne
  obtain ⟨cb, b', rfl⟩ := List.exists_cons_of_ne_nil hbne
  have hc0 : 'A' ≤ c0 ∧ c0 ≤ 'Z' := hwc c0 (List.mem_cons_self _ _)
  have hwsw : ∀ c ∈ (c0 :: w'), (!wsChar c) = true := by
    intro c hc
    rw [wsChar_false_of_ge_A (hwc c hc).1]; rfl
  have hcb : wsChar cb = false := hbh
  have hstrip : strip (mkBaseLine (c0 :: w') (cb :: b')) =
      mkBaseLine (c0 :: w') (cb :: b') := by
    apply strip_eq_self
    · simp [mkBaseLine]
    · show wsChar ((c0 :: (w' ++ ' ' :: ' ' :: cb :: b')).headD ' ') = false
      exact wsChar_false_of_ge_A hc0.1
    · show wsChar ((mkBaseLine (c0 :: w') (cb :: b')).getLastD ' ') = false
      unfold mkBaseLine
      rw [getLastD_append_right _ (by simp),
        show (' ' :: ' ' :: cb :: b') = [' ', ' '] ++ (cb :: b') by rfl,
        getLastD_append_right _ (by simp),
        getLastD_default_irrel (by simp : (cb :: b') ≠ []) ' ' 'A']
      exact hbl
  have hempty : (mkBaseLine (c0 :: w') (cb :: b')).isEmpty = false := by
    simp [mkBaseLine]
  have hsemi : isPref ((";;;").toList) (mkBaseLine (c0 :: w') (cb :: b')) = false := by
    show isPref (';' :: ';' :: ';' :: []) (c0 :: (w' ++ ' ' :: ' ' :: cb :: b')) = false
    rw [isPref_cons_cons]
    have : (';' == c0) = false := by
      have : ';' ≠ c0 := fun hh => absurd (hh ▸ hc0.1) (by decide)
      simp [this]
    rw [this, Bool.false_and]
  have htake : (mkBaseLine (c0 :: w') (cb :: b')).takeWhile (fun c => !wsChar c)
      = c0 :: w' := takeWhile_append_stop hwsw (by decide) _
  have hdrop : (mkBaseLine (c0 :: w') (cb :: b')).dropWhile (fun c => !wsChar c)
      = ' ' :: ' ' :: cb :: b' := dropWhile_append_stop hwsw (by decide) _
  have hws2 : List.dropWhile (fun c => wsChar c) (' ' :: ' ' :: cb :: b') = cb :: b' := by
    rw [List.dropWhile_cons, if_pos (show wsChar ' ' = true by decide),
      List.dropWhile_cons, if_pos (show wsChar ' ' = true by decide),
      List.dropWhile_cons, if_neg (show ¬wsChar cb = true by simp [hcb])]
  have hsplit : split2 (mkBaseLine (c0 :: w') (cb :: b'))
      = some (c0 :: w', cb :: b') := by
    simp only [split2]
    rw [htake, hdrop, hws2]
    rw [if_neg (by simp)]
  have hword : (c0 :: w').takeWhile (fun c => !(c == '(')) = c0 :: w' := by
    apply takeWhile_eq_self
    intro c hc
    rw [ne_paren_of_ge_A (hwc c hc).1]; rfl
  have hparen : (c0 :: w').contains '(' = false := contains_paren_false hwc
  simp only [processLine, hstrip, hempty, hsemi, hsplit, hword, hparen]
  rfl

theorem processLine_variant {w v : Str} (st : LoadState)
    (hw : wfWord w = true) (hv : wfArp v = true) :
    processLine st (mkVarLine w v) =
      (if tupLt (scoreVariant v)
          (scoreVariant ((lookupT st.cache (lowerStr w)).getD [])) then
        ⟨(lowerStr w, arpabetToIpa v) :: st.dict, (lowerStr w, v) :: st.cache⟩
      else st) := by
  obtain ⟨hwne, hwc⟩ := wfWord_spec hw
  obtain ⟨hvne, hvh, hvl⟩ := wfArp_spec hv
  obtain ⟨c0, w', rfl⟩ := List.exists_cons_of_ne_nil hwne
  obtain ⟨cv, v', rfl⟩ := List.exists_cons_of_ne_nil hvne
  have hc0 : 'A' ≤ c0 ∧ c0 ≤ 'Z' := hwc c0 (List.mem_cons_self _ _)
  have hcv : wsChar cv = false := hvh
  have hshape : mkVarLine (c0 :: w') (cv :: v')
      = ((c0 :: w') ++ '(' :: '2' :: ')' :: []) ++ ' ' :: ' ' :: cv :: v' := by
    unfold mkVarLine; simp
  have hconc : ∀ c ∈ ('(' :: '2' :: ')' :: []), (!wsChar c) = true := by decide
  have hwsw : ∀ c ∈ ((c0 :: w') ++ '(' :: '2' :: ')' :: []), (!wsChar c) = true := by
    intro c hc
    rcases List.mem_append.1 hc with hcw | hcp
    · rw [wsChar_false_of_ge_A (hwc c hcw).1]; rfl
    · exact hconc c hcp
  have hstrip : strip (mkVarLine (c0 :: w') (cv :: v')) =
      mkVarLine (c0 :: w') (cv :: v') := by
    apply strip_eq_self
    · rw [hshape]; simp
    · show wsChar ((mkVarLine (c0 :: w') (cv :: v')).headD ' ') = false
      exact wsChar_false_of_ge_A hc0.1
    · show wsChar ((mkVarLine (c0 :: w') (cv :: v')).getLastD ' ') = false
      rw [hshape, getLastD_append_right _ (by simp),
        show (' ' :: ' ' :: cv :: v') = [' ', ' '] ++ (cv :: v') by rfl,
        getLastD_append_right _ (by simp),
        getLastD_default_irrel (by simp : (cv :: v') ≠ []) ' ' 'A']
      exact hvl
  have hempty : (mkVarLine (c0 :: w') (cv :: v')).isEmpty = false := by
    unfold mkVarLine; simp
  have hsemi : isPref ((";;;").toList) (mkVarLine (c0 :: w') (cv :: v')) = false := by
    show isPref (';' :: ';' :: ';' :: [])
      (c0 :: (w' ++ ('(' :: '2' :: ')' :: ' ' :: ' ' :: (cv :: v')))) = false
    rw [isPref_cons_cons]
    have : (';' == c0) = false := by
      have : ';' ≠ c0 := fun hh => absurd (hh ▸ hc0.1) (by decide)
      simp [this]
    rw [this, Bool.false_and]
  have htake : (mkVarLine (c0 :: w') (cv :: v')).takeWhile (fun c => !wsChar c)
      = (c0 :: w') ++ '(' :: '2' :: ')' :: [] := by
    rw [hshape]; exact takeWhile_append_stop hwsw (by decide) _
  have hdrop : (mkVarLine (c0 :: w') (cv :: v')).dropWhile (fun c => !wsChar c)
      = ' ' :: ' ' :: cv :: v' := by
    rw [hshape]; exact dropWhile_append_stop hwsw (by decide) _
  have hws2 : List.dropWhile (fun c => wsChar c) (' ' :: ' ' :: cv :: v') = cv :: v' := by
    rw [List.dropWhile_cons, if_pos (show wsChar ' ' = true by decide),
      List.dropWhile_cons, if_pos (show wsChar ' ' = true by decide),
      List.dropWhile_cons, if_neg (show ¬wsChar cv = true by simp [hcv])]
  have hsplit : split2 (mkVarLine (c0 :: w') (cv :: v'))
      = some ((c0 :: w') ++ '(' :: '2' :: ')' :: [], cv :: v') := by
    simp only [split2]
    rw [htake, hdrop, hws2]
    rw [if_neg (by simp)]
  have hword : ((c0 :: w') ++ '(' :: '2' :: ')' :: []).takeWhile (fun c => !(c == '('))
      = c0 :: w' := by
    apply takeWhile_append_stop
    · intro c hc
      rw [ne_paren_of_ge_A (hwc c hc).1]; rfl
    · decide
  have hparen : ((c0 :: w') ++ '(' :: '2' :: ')' :: []).contains '(' = true :=
    contains_append_paren _ _
  simp only [processLine, hstrip, hempty, hsemi, hsplit, hword, hparen]
  rfl

theorem loadLoop {w : Str} (hw : wfWord w = true) :
    ∀ (vs : List Str), (∀ v ∈ vs, wfArp v = true) →
      ∀ (st : LoadState) (cur : Str),
      lookupT st.cache (lowerStr w) = some cur →
      lookupT st.dict (lowerStr w) = some (arpabetToIpa cur) →
      lookupT (List.foldl processLine st (vs.map (mkVarLine w))).dict (lowerStr w)
        = some (arpabetToIpa (selectVariant cur vs)) := by
  intro vs
  induction vs with
  | nil => intro _ st cur _ hd; exact hd
  | cons v vs ih =>
    intro hv st cur hc hd
    rw [List.map_cons, List.foldl_cons,
      processLine_variant st hw (hv v (List.mem_cons_self _ _)), hc]
    have hsel : selectVariant cur (v :: vs)
        = selectVariant (if tupLt (scoreVariant v) (scoreVariant cur) then v else cur) vs := rfl
    rw [hsel]
    have hgd : (some cur).getD ([] : Str) = cur := rfl
    rw [hgd]
    by_cases ht : tupLt (scoreVariant v) (scoreVariant cur) = true
    · rw [if_pos ht, if_pos ht]
      exact ih (fun u hu => hv u (List.mem_cons_of_mem _ hu)) _ v
        (lookupT_cons_self _ _ _) (lookupT_cons_self _ _ _)
    · rw [if_neg ht, if_neg ht]
      exact ih (fun u hu => hv u (List.mem_cons_of_mem _ hu)) st cur hc hd

/-- C2 (amended): the selection rule with the two-count score.  Loading a
baseline line followed by numbered-alternate lines in corpus order stores
exactly the fold in which an alternate replaces the current result iff its
`(HH count, AH0 count)` score is strictly lower; equal scores never
overwrite, and a word with only a baseline keeps the baseline. -/
theorem claim_C2_amended :
    ∀ (w b : Str) (vs : List Str), wfWord w = true → wfArp b = true →
      (∀ v ∈ vs, wfArp v = true) →
      (lookupT (loadFromLines (mkLines w b vs)) (lowerStr w)
        = some (arpabetToIpa (selectVariant b vs))) ∧
      (∀ cur v : Str, scoreVariant v = scoreVariant cur →
        selectVariant cur [v] = cur) ∧
      selectVariant b [] = b := by
  intro w b vs hw hb hv
  refine ⟨?_, ?_, rfl⟩
  · unfold loadFromLines mkLines
    rw [List.foldl_cons, processLine_base _ hw hb]
    exact loadLoop hw vs hv _ b (lookupT_cons_self _ _ _) (lookupT_cons_self _ _ _)
  · intro cur v hsc
    show (if tupLt (scoreVariant v) (scoreVariant cur) then v else cur) = cur
    rw [hsc]
    have hirr : tupLt (scoreVariant cur) (scoreVariant cur) = false := by
      simp [tupLt]
    rw [hirr]
    rfl

/-- Witness for C2 (amended): `HELLO` with baseline `HH AH0 L OW1` (score
`(1,1)`) and alternate `HH EH1 L OW0` (score `(1,0)`, strictly lower, so it
wins). -/
theorem claim_C2_witness :
    (lookupT (loadFromLines (mkLines (("HELLO").toList) (("HH AH0 L OW1").toList)
        [(("HH EH1 L OW0").toList)])) (lowerStr (("HELLO").toList))
      = some (arpabetToIpa (selectVariant (("HH AH0 L OW1").toList)
          [(("HH EH1 L OW0").toList)]))) ∧
    (∀ cur v : Str, scoreVariant v = scoreVariant cur →
      selectVariant cur [v] = cur) ∧
    selectVariant (("HH AH0 L OW1").toList) [] = ("HH AH0 L OW1").toList :=
  claim_C2_amended (("HELLO").toList) (("HH AH0 L OW1").toList)
    [(("HH EH1 L OW0").toList)] (by decide) (by decide) (by decide)

/-! ### Infrastructure: the stress resolver -/

theorem endsW_singleton_concat (c x : Char) (xs : Str) :
    endsW [c] (xs ++ [x]) = (c == x) := by
  unfold endsW
  rw [List.reverse_concat]
  show ((c == x) && isPref [] xs.reverse) = (c == x)
  exact Bool.and_true _

theorem isPrimTok_eq_spec (t : Str) : isPrimTok t = specPrimVowel t := by
  rcases List.eq_nil_or_concat t with rfl | ⟨xs, x, rfl⟩
  · decide
  · rw [List.concat_eq_append]
    have h1 : (xs ++ [x]).isEmpty = false := by cases xs <;> rfl
    have h2 : ('1' == x) = (x == '1') := by
      by_cases h : x = '1'
      · subst h; rfl
      · have h' : ¬('1' = x) := fun hh => h hh.symm
        simp [h, h']
    unfold isPrimTok specPrimVowel
    rw [h1, endsW_singleton_concat, List.getLastD_concat, h2]
    cases hx : (x == '1') <;>
      cases hc : stressedVowels.contains (stripD (xs ++ [x])) <;> rfl

theorem getLast?_map_nat (f : Nat → Nat) (l : List Nat) :
    (l.map f).getLast? = l.getLast?.map f := by
  rw [← List.head?_reverse, ← List.map_reverse, List.head?_map, List.head?_reverse]

theorem lastPrimAux_spec (ts : List Str) : ∀ (i : Nat) (acc : Option Nat),
    lastPrimAux i acc ts = ((recordedIdxs ts).getLast?.map (· + i)).or acc := by
  induction ts with
  | nil => intro i acc; rfl
  | cons t ts ih =>
    intro i acc
    show lastPrimAux (i + 1) (if isPrimTok t then some i else acc) ts = _
    rw [ih, isPrimTok_eq_spec]
    show _ = (((if specPrimVowel t then [0] else []) ++
        (recordedIdxs ts).map (· + 1)).getLast?.map (· + i)).or acc
    rw [List.getLast?_append, getLast?_map_nat]
    cases hts : (recordedIdxs ts).getLast? with
    | some j =>
      have hj : j + (i + 1) = j + 1 + i := by omega
      simp [hj]
    | none =>
      cases hsp : specPrimVowel t with
      | true => simp
      | false => simp

theorem lastPrimaryIdx_eq_spec (ts : List Str) :
    lastPrimaryIdx ts = specStressIndex ts := by
  unfold lastPrimaryIdx specStressIndex
  rw [lastPrimAux_spec]
  cases h : (recordedIdxs ts).getLast? <;> simp

theorem recordedIdxs_eq_nil {ts : List Str}
    (h : ∀ t ∈ ts, specPrimVowel t = false) : recordedIdxs ts = [] := by
  induction ts with
  | nil => rfl
  | cons t ts ih =>
    show ((if specPrimVowel t then [0] else []) ++
        (recordedIdxs ts).map (· + 1)) = []
    rw [h t (List.mem_cons_self _ _), ih (fun u hu => h u (List.mem_cons_of_mem _ hu))]
    rfl

/-- C6: the stress resolver scans left to right and selects the last
vowel token tagged with primary stress: the loop of `arpabet_to_ipa`
computes exactly the spec-side "last recorded index of a primary-tagged
vowel token"; tokens that are not primary-tagged vowels (consonants with any
trailing digit, secondary-stress tags) never select an index, and when no
vowel token is tagged primary the index is absent. -/
theorem claim_C6_stress_resolver :
    ∀ ts : List Str, lastPrimaryIdx ts = specStressIndex ts ∧
      ((∀ t ∈ ts, specPrimVowel t = false) → lastPrimaryIdx ts = none) := by
  intro ts
  refine ⟨lastPrimaryIdx_eq_spec ts, fun h => ?_⟩
  rw [lastPrimaryIdx_eq_spec, specStressIndex, recordedIdxs_eq_nil h]
  rfl

/-- Witness for C6: on `B1 AH2 AH0` (a consonant with a trailing `1`, a
secondary-stressed and an unstressed vowel) no index is selected. -/
theorem claim_C6_witness :
    lastPrimaryIdx [(("B1").toList), (("AH2").toList), (("AH0").toList)]
        = specStressIndex [(("B1").toList), (("AH2").toList), (("AH0").toList)] ∧
    lastPrimaryIdx [(("B1").toList), (("AH2").toList), (("AH0").toList)] = none := by
  refine ⟨(claim_C6_stress_resolver _).1, (claim_C6_stress_resolver _).2 ?_⟩
  decide

/-- C7: the phoneme mapper is a total function: it is defined for every
input (never an error), an empty token sequence maps to the empty
intermediate string, and every token whose stress-stripped text is not in
the phoneme table is emitted as its lowercase literal text. -/
theorem claim_C7_total_mapper :
    arpabetToIpa [] = [] ∧
    ∀ (idx : Option Nat) (i : Nat) (t : Str) (ts : List Str),
      lookupT arpaTable (stripD t) = none →
      emitFrom idx i (t :: ts) = lowerStr (stripD t) ++ emitFrom idx (i + 1) ts := by
  refine ⟨rfl, ?_⟩
  intro idx i t ts h
  simp [emitFrom, h]

/-- Witness for C7: the unknown token `XX` is emitted as its lowercase
literal `xx`. -/
theorem claim_C7_witness :
    emitFrom none 0 ((("XX").toList) :: []) =
      lowerStr (stripD (("XX").toList)) ++ emitFrom none 1 [] :=
  claim_C7_total_mapper.2 none 0 (("XX").toList) [] (by decide)

/-- C10: `translate_word` keys every dictionary access on the lowercased
word, so two case-variants of a word get the same `ipa`, `spanish` and
`found` fields, while the `word` field echoes the given input verbatim. -/
theorem claim_C10_case_insensitive :
    ∀ (d : List (Str × Str)) (w₁ w₂ : Str), lowerStr w₁ = lowerStr w₂ →
      (translateWord d w₁).ipa = (translateWord d w₂).ipa ∧
      (translateWord d w₁).spanish = (translateWord d w₂).spanish ∧
      (translateWord d w₁).found = (translateWord d w₂).found ∧
      (translateWord d w₁).word = w₁ ∧ (translateWord d w₂).word = w₂ := by
  intro d w₁ w₂ h
  have hl : lookupT d (lowerStr w₁) = lookupT d (lowerStr w₂) := by rw [h]
  have hc : lookupClean d w₁ = lookupClean d w₂ := by
    unfold lookupClean; rw [hl]
  unfold translateWord
  rw [hl, hc]
  cases htr : truthy (lookupT d (lowerStr w₂)) with
  | true => simp [htr]
  | false => simp [htr]

/-- Witness for C10 at the words `Hello` / `hELLO` over a one-line corpus. -/
theorem claim_C10_witness :
    (translateWord (loadFromLines [(("HELLO  HH AH0 L OW1").toList)])
        (("Hello").toList)).ipa
      = (translateWord (loadFromLines [(("HELLO  HH AH0 L OW1").toList)])
        (("hELLO").toList)).ipa ∧
    (translateWord (loadFromLines [(("HELLO  HH AH0 L OW1").toList)])
        (("Hello").toList)).spanish
      = (translateWord (loadFromLines [(("HELLO  HH AH0 L OW1").toList)])
        (("hELLO").toList)).spanish ∧
    (translateWord (loadFromLines [(("HELLO  HH AH0 L OW1").toList)])
        (("Hello").toList)).found
      = (translateWord (loadFromLines [(("HELLO  HH AH0 L OW1").toList)])
        (("hELLO").toList)).found ∧
    (translateWord (loadFromLines [(("HELLO  HH AH0 L OW1").toList)])
        (("Hello").toList)).word = ("Hello").toList ∧
    (translateWord (loadFromLines [(("HELLO  HH AH0 L OW1").toList)])
        (("hELLO").toList)).word = ("hELLO").toList :=
  claim_C10_case_insensitive (loadFromLines [(("HELLO  HH AH0 L OW1").toList)])
    (("Hello").toList) (("hELLO").toList) (by decide)

/-! ### Infrastructure: identity of the engine on safe final outputs -/

theorem applyRules_id_mixed {R : List (Str × Str)} {s : Str} {bad : Char → Bool}
    (hR : (R.all (fun pr => pr.1.any bad || (pr.1 == pr.2 && !pr.1.isEmpty))) = true)
    (hs : ∀ c ∈ s, bad c = false) : applyRules R s = s := by
  apply applyRules_id_of_steps
  intro pr hpr
  have hh := List.all_eq_true.1 hR pr hpr
  rcases Bool.or_eq_true_iff.1 hh with hany | hself
  · rcases List.any_eq_true.1 hany with ⟨x, hxp, hxbad⟩
    exact replaceAll_no_match (containsSub_eq_false_of_mem_not_mem hxp
      (fun hmem => by rw [hs x hmem] at hxbad; cases hxbad))
  · rw [Bool.and_eq_true] at hself
    have h1 : pr.1 = pr.2 := eq_of_beq hself.1
    have h2 : pr.1 ≠ [] := by
      intro hnil
      have := hself.2
      rw [hnil] at this
      cases this
    calc replaceAll pr.1 pr.2 s = replaceAll pr.1 pr.1 s := by rw [← h1]
    _ = s := replaceAll_self _ _ h2

theorem not_mem_of_all {p : Char → Bool} {s : Str} (hs : ∀ c ∈ s, p c = true)
    {x : Char} (hx : p x = false) : x ∉ s :=
  fun hmem => by rw [hs x hmem] at hx; cases hx

theorem map_id_of_mem {f : Char → Char} {s : Str} (h : ∀ c ∈ s, f c = c) :
    s.map f = s := by
  induction s with
  | nil => rfl
  | cons c cs ih =>
    rw [List.map_cons, h c (List.mem_cons_self _ _),
      ih (fun d hd => h d (List.mem_cons_of_mem _ hd))]

theorem lowerChar_id_of_idem {c : Char} (h : idemChar c = true) :
    lowerChar c = c := by
  unfold idemChar at h
  rcases Bool.or_eq_true_iff.1 h with hl | ha
  · rw [Bool.and_eq_true, Bool.and_eq_true] at hl
    have h1 : 'a' ≤ c ∧ c ≤ 'z' := of_decide_eq_true hl.1.1
    unfold lowerChar
    rw [if_neg (fun hc => absurd (le_trans h1.1 hc.2) (by decide))]
  · unfold accentChar at ha
    rcases Bool.or_eq_true_iff.1 ha with ha | h5
    rcases Bool.or_eq_true_iff.1 ha with ha | h4
    rcases Bool.or_eq_true_iff.1 ha with ha | h3
    rcases Bool.or_eq_true_iff.1 ha with h1 | h2
    · rw [eq_of_beq h1]; decide
    · rw [eq_of_beq h2]; decide
    · rw [eq_of_beq h3]; decide
    · rw [eq_of_beq h4]; decide
    · rw [eq_of_beq h5]; decide

theorem vocalY_fold_id {s : Str} :
    ∀ (vl : Str), (∀ v ∈ vl, endsW [v, 'y'] s = false) →
      vl.foldl vocalYStep s = s := by
  intro vl
  induction vl with
  | nil => intro _; rfl
  | cons v vl ih =>
    intro hh
    rw [List.foldl_cons]
    have hstep : vocalYStep s v = s := by
      unfold vocalYStep
      rw [hh v (List.mem_cons_self _ _)]
      rfl
    rw [hstep]
    exact ih (fun u hu => hh u (List.mem_cons_of_mem _ hu))

theorem ipaToSpanish_id_on_safe {s : Str} (h : idemSafe s = true) :
    ipaToSpanish s = s := by
  unfold idemSafe at h
  simp only [Bool.and_eq_true, Bool.not_eq_true'] at h
  obtain ⟨⟨⟨⟨⟨hall, hngk⟩, hngg⟩, hii2⟩, hii3⟩, hvy⟩ := h
  rw [List.all_eq_true] at hall
  have hvy' : ∀ v ∈ vocalsList, endsW [v, 'y'] s = false := by
    intro v hv
    have := List.all_eq_true.1 hvy v hv
    cases hb : endsW [v, 'y'] s
    · rfl
    · rw [hb] at this; cases this
  have hbad : ∀ c ∈ s, (!idemChar c) = false := by
    intro c hc; rw [hall c hc]; rfl
  have hnm : ∀ x : Char, idemChar x = false → x ∉ s :=
    fun x hx => not_mem_of_all hall hx
  have e1 : applyRules stressPairs s = s :=
    applyRules_id_mixed (by decide) hbad
  have e2 : replaceAll SENT [] s = s :=
    replaceAll_no_match (containsSub_eq_false_of_mem_not_mem
      (by decide : '~' ∈ SENT) (hnm '~' (by decide)))
  have e3 : lowerStr s = s :=
    map_id_of_mem (fun c hc => lowerChar_id_of_idem (hall c hc))
  have e4 : replaceAll [('ˈ')] [] s = s :=
    replaceAll_no_match (containsSub_eq_false_of_mem_not_mem
      (List.mem_singleton.2 rfl) (hnm 'ˈ' (by decide)))
  have e5 : replaceAll [('ˌ')] [] s = s :=
    replaceAll_no_match (containsSub_eq_false_of_mem_not_mem
      (List.mem_singleton.2 rfl) (hnm 'ˌ' (by decide)))
  have e6 : replaceAll [('j')] TEMPJ s = s :=
    replaceAll_no_match (containsSub_eq_false_of_mem_not_mem
      (List.mem_singleton.2 rfl) (hnm 'j' (by decide)))
  have e7 : applyRules compoundRules s = s :=
    applyRules_id_mixed (by decide) hbad
  have e8 : replaceAll (("sh").toList) TEMPSH s = s :=
    replaceAll_no_match (containsSub_eq_false_of_mem_not_mem
      (by decide : 'h' ∈ ("sh").toList) (hnm 'h' (by decide)))
  have e9 : replaceAll (("ch").toList) TEMPCH s = s :=
    replaceAll_no_match (containsSub_eq_false_of_mem_not_mem
      (by decide : 'h' ∈ ("ch").toList) (hnm 'h' (by decide)))
  have e10 : applyRules vowelRules s = s :=
    applyRules_id_mixed (by decide) hbad
  have e11 : applyRules consonantRules s = s :=
    applyRules_id_mixed (by decide) hbad
  have e12 : replaceAll TEMPJ [('i')] s = s :=
    replaceAll_no_match (containsSub_eq_false_of_mem_not_mem
      (by decide : '~' ∈ TEMPJ) (hnm '~' (by decide)))
  have e13 : replaceAll TEMPSH (("sh").toList) s = s :=
    replaceAll_no_match (containsSub_eq_false_of_mem_not_mem
      (by decide : '~' ∈ TEMPSH) (hnm '~' (by decide)))
  have e14 : replaceAll TEMPCH (("ch").toList) s = s :=
    replaceAll_no_match (containsSub_eq_false_of_mem_not_mem
      (by decide : '~' ∈ TEMPCH) (hnm '~' (by decide)))
  have e15 : vocalsList.foldl vocalYStep s = s := vocalY_fold_id vocalsList hvy'
  have e16 : replaceAll (("pj").toList) (("pi").toList) s = s :=
    replaceAll_no_match (containsSub_eq_false_of_mem_not_mem
      (by decide : 'j' ∈ ("pj").toList) (hnm 'j' (by decide)))
  have e17 : replaceAll (("ngk").toList) (("nk").toList) s = s :=
    replaceAll_no_match hngk
  have e18 : replaceAll (("ngg").toList) (("ng").toList) s = s :=
    replaceAll_no_match hngg
  have e19 : replaceAll (("íi").toList) (("íe").toList) s = s :=
    replaceAll_no_match hii2
  have e20 : replaceAll (("ii").toList) (("ie").toList) s = s :=
    replaceAll_no_match hii3
  have e21 : replaceAll MARKALOW [] s = s :=
    replaceAll_no_match (containsSub_eq_false_of_mem_not_mem
      (by decide : '~' ∈ MARKALOW) (hnm '~' (by decide)))
  show ipaToSpanish s = s
  unfold ipaToSpanish
  rw [e1]
  simp only [afterStress, e2, e3, e4, e5, e6, e7, e8, e9, e10, e11, e12,
    e13, e14, e15, e16, e17, e18, e19, e20, e21]

/-- C5 (amended): the rewrite engine is idempotent on every input whose
first-pass output lies in the safe final alphabet (lowercase letters other
than `h` and `j`, plus accented vowels), contains none of the cleanup
patterns `ngk`/`ngg`/`íi`/`ii`, and does not end in a vowel followed by `y`;
on such outputs a second application of the engine is the identity. -/
theorem claim_C5_amended :
    ∀ x : Str, idemSafe (ipaToSpanish x) = true →
      ipaToSpanish (ipaToSpanish x) = ipaToSpanish x :=
  fun _ h => ipaToSpanish_id_on_safe h

/-- Witness for C5 at `θɪŋk` (output `zink`, which is safe). -/
theorem claim_C5_witness :
    ipaToSpanish (ipaToSpanish (("θɪŋk").toList)) = ipaToSpanish (("θɪŋk").toList) :=
  claim_C5_amended (("θɪŋk").toList) (by decide)

/-! ### Infrastructure: sentinel firing in the stress phase -/

theorem SENT_chars :
    SENT = '~' :: '~' :: 'S' :: 'T' :: 'R' :: 'E' :: 'S' :: 'S' :: '~' :: '~' :: [] := rfl

theorem isPref_append_cancel (x a b : Str) : isPref (x ++ a) (x ++ b) = isPref a b := by
  induction x with
  | nil => rfl
  | cons c cs ih => simp [isPref_cons_cons, ih]

theorem replaceAll_append_left {p : Str} (r : Str) {a : Str} (b : Str)
    (hpne : p ≠ []) (ha : p.headD ' ' ∉ a) :
    replaceAll p r (a ++ b) = a ++ replaceAll p r b := by
  obtain ⟨hp, pt, rfl⟩ := List.exists_cons_of_ne_nil hpne
  exact replaceAll_append_head r b ha

/-- No occurrence of `SENT ++ k` in `SENT ++ v ++ B` when `k` does not match
    at the sentinel: the sentinel text cannot re-align with itself. -/
theorem sent_walk {k r : Str} {v0 : Char} {v' B : Str}
    (hB : '~' ∉ B) (hv' : '~' ∉ v') (h0t : v0 ≠ '~') (h0S : v0 ≠ 'S')
    (hk : isPref k (v0 :: (v' ++ B)) = false) :
    replaceAll (SENT ++ k) r (SENT ++ (v0 :: (v' ++ B))) =
      SENT ++ (v0 :: (v' ++ B)) := by
  have hb0 : ('~' == v0) = false := by
    rw [beq_eq_false_iff_ne]; exact fun hh => h0t hh.symm
  have hbS : ('S' == v0) = false := by
    rw [beq_eq_false_iff_ne]; exact fun hh => h0S hh.symm
  set t : Str := v0 :: (v' ++ B) with ht
  have htnm : '~' ∉ t := by
    intro hmem
    rcases List.mem_cons.1 hmem with hh | hh
    · exact h0t hh.symm
    · rcases List.mem_append.1 hh with h1 | h1
      · exact hv' h1
      · exact hB h1
  have hfin : repAux (SENT ++ k) r 0 t = t :=
    replaceAll_no_match (containsSub_eq_false_of_mem_not_mem
      (List.mem_append_left k (by decide : '~' ∈ SENT)) htnm)
  have h0 : isPref (SENT ++ k) (SENT ++ t) = false := by
    rw [isPref_append_cancel]; exact hk
  have hne1 : isPref (SENT ++ k)
      ('~' :: 'S' :: 'T' :: 'R' :: 'E' :: 'S' :: 'S' :: '~' :: '~' :: t) = false := by
    simp [SENT_chars, isPref_cons_cons]
  have hne2 : isPref (SENT ++ k)
      ('S' :: 'T' :: 'R' :: 'E' :: 'S' :: 'S' :: '~' :: '~' :: t) = false := by
    simp [SENT_chars, isPref_cons_cons]
  have hne3 : isPref (SENT ++ k)
      ('T' :: 'R' :: 'E' :: 'S' :: 'S' :: '~' :: '~' :: t) = false := by
    simp [SENT_chars, isPref_cons_cons]
  have hne4 : isPref (SENT ++ k)
      ('R' :: 'E' :: 'S' :: 'S' :: '~' :: '~' :: t) = false := by
    simp [SENT_chars, isPref_cons_cons]
  have hne5 : isPref (SENT ++ k)
      ('E' :: 'S' :: 'S' :: '~' :: '~' :: t) = false := by
    simp [SENT_chars, isPref_cons_cons]
  have hne6 : isPref (SENT ++ k) ('S' :: 'S' :: '~' :: '~' :: t) = false := by
    simp [SENT_chars, isPref_cons_cons]
  have hne7 : isPref (SENT ++ k) ('S' :: '~' :: '~' :: t) = false := by
    simp [SENT_chars, isPref_cons_cons]
  have hne8 : isPref (SENT ++ k) ('~' :: '~' :: t) = false := by
    rw [ht]
    simp [SENT_chars, isPref_cons_cons, hbS]
  have hne9 : isPref (SENT ++ k) ('~' :: t) = false := by
    rw [ht]
    simp [SENT_chars, isPref_cons_cons, hb0]
  have h0' : isPref (SENT ++ k)
      ('~' :: '~' :: 'S' :: 'T' :: 'R' :: 'E' :: 'S' :: 'S' :: '~' :: '~' :: t) = false := h0
  show repAux (SENT ++ k) r 0
    ('~' :: '~' :: 'S' :: 'T' :: 'R' :: 'E' :: 'S' :: 'S' :: '~' :: '~' :: t)
    = '~' :: '~' :: 'S' :: 'T' :: 'R' :: 'E' :: 'S' :: 'S' :: '~' :: '~' :: t
  rw [repAux_zero_neg r h0', repAux_zero_neg r hne1, repAux_zero_neg r hne2,
    repAux_zero_neg r hne3, repAux_zero_neg r hne4, repAux_zero_neg r hne5,
    repAux_zero_neg r hne6, repAux_zero_neg r hne7, repAux_zero_neg r hne8,
    repAux_zero_neg r hne9, hfin]

theorem sent_no_fire {k r A : Str} {v0 : Char} {v' B : Str}
    (hA : '~' ∉ A) (hB : '~' ∉ B) (hv' : '~' ∉ v') (h0t : v0 ≠ '~') (h0S : v0 ≠ 'S')
    (hk : isPref k (v0 :: (v' ++ B)) = false) :
    replaceAll (SENT ++ k) r (A ++ (SENT ++ (v0 :: (v' ++ B)))) =
      A ++ (SENT ++ (v0 :: (v' ++ B))) := by
  rw [replaceAll_append_left r _ (by simp [SENT_chars]) hA]
  rw [sent_walk hB hv' h0t h0S hk]

theorem applyRules_sent_pre {R : List (Str × Str)} {A : Str} {v0 : Char} {v' B : Str}
    (hA : '~' ∉ A) (hB : '~' ∉ B) (hv' : '~' ∉ v') (h0t : v0 ≠ '~') (h0S : v0 ≠ 'S')
    (hR : ∀ pr ∈ R, ∃ k, pr.1 = SENT ++ k ∧ isPref k (v0 :: (v' ++ B)) = false) :
    applyRules R (A ++ (SENT ++ (v0 :: (v' ++ B)))) =
      A ++ (SENT ++ (v0 :: (v' ++ B))) := by
  apply applyRules_id_of_steps
  intro pr hpr
  rcases hR pr hpr with ⟨k, hk1, hk2⟩
  rw [hk1]
  exact sent_no_fire hA hB hv' h0t h0S hk2

theorem sent_fire {A B v : Str} (r : Str) (hA : '~' ∉ A) (hB : '~' ∉ B) :
    replaceAll (SENT ++ v) r (A ++ (SENT ++ (v ++ B))) = A ++ (r ++ B) := by
  have h1 : A ++ (SENT ++ (v ++ B)) = A ++ ((SENT ++ v) ++ B) := by
    simp [List.append_assoc]
  rw [h1, replaceAll_append_left r _ (by simp [SENT_chars]) hA,
    replaceAll_fire r B (by simp [SENT_chars]),
    replaceAll_no_match (containsSub_eq_false_of_mem_not_mem
      (List.mem_append_left v (by decide : '~' ∈ SENT)) hB)]

/-! ### Infrastructure: first-occurrence replacement -/

theorem repOnce_split {p r s : Str} (hp : p ≠ []) (h : containsSub p s = true) :
    ∃ A B, s = A ++ (p ++ B) ∧ repOnce p r s = A ++ (r ++ B) := by
  induction s with
  | nil =>
    cases p with
    | nil => exact absurd rfl hp
    | cons a ps => simp at h
  | cons c cs ih =>
    by_cases hpre : isPref p (c :: cs) = true
    · rcases isPref_iff_exists.1 hpre with ⟨t, ht⟩
      refine ⟨[], t, by simp [ht], ?_⟩
      show repOnce p r (c :: cs) = r ++ t
      unfold repOnce
      rw [if_pos hpre, ht]
      congr 1
      exact List.drop_left p t
    · have h2 : containsSub p cs = true := by
        rcases Bool.or_eq_true_iff.1 h with h1 | h1
        · exact absurd h1 hpre
        · exact h1
      rcases ih h2 with ⟨A, B, hAB, hres⟩
      refine ⟨c :: A, B, by simp [hAB], ?_⟩
      show repOnce p r (c :: cs) = c :: (A ++ (r ++ B))
      unfold repOnce
      rw [if_neg hpre, hres]

theorem endsW_two {a b : Char} {s : Str} (h : endsW [a, b] s = true) :
    ∃ t, s = t ++ [a, b] := by
  unfold endsW at h
  rcases isPref_iff_exists.1 h with ⟨u, hu⟩
  refine ⟨u.reverse, ?_⟩
  have := congrArg List.reverse hu
  rw [List.reverse_reverse] at this
  rw [this]
  simp

theorem mem_vocalY_fold {c : Char} (hc : c ≠ 'y') :
    ∀ (vl : Str) (s : Str), c ∈ s → c ∈ vl.foldl vocalYStep s := by
  intro vl
  induction vl with
  | nil => intro s hs; exact hs
  | cons v vl ih =>
    intro s hs
    rw [List.foldl_cons]
    apply ih
    unfold vocalYStep
    by_cases he : endsW [v, 'y'] s = true
    · rw [if_pos he]
      rcases endsW_two he with ⟨t, rfl⟩
      have hdl : (t ++ [v, 'y']).dropLast = t ++ [v] := by
        rw [show t ++ [v, 'y'] = (t ++ [v]) ++ ['y'] by simp]
        exact List.dropLast_concat
      rw [hdl]
      apply List.mem_append_left
      rcases List.mem_append.1 hs with h1 | h1
      · exact List.mem_append_left _ h1
      · rcases List.mem_cons.1 h1 with rfl | h2
        · exact List.mem_append_right _ (List.mem_singleton.2 rfl)
        · rcases List.mem_singleton.1 h2 with rfl
          exact absurd rfl hc
    · rw [if_neg he]
      exact hs

theorem mem_afterStress {c : Char} {u : Str} (hc : tailSafeChar c = true)
    (hmem : c ∈ u) : c ∈ afterStress u := by
  have hp := of_decide_eq_true hc
  obtain ⟨hlow, hy, hj, hp1, hp2, hS, hTJ, hTS, hTC, hcomp, hvow, hcons,
    hsh, hch, hpj, hngk, hngg, hiia, hiib, hmka⟩ := hp
  unfold afterStress
  apply mem_replaceAll _ (by decide) (Or.inl hmka)
  apply mem_replaceAll _ (by decide) (Or.inl hiib)
  apply mem_replaceAll _ (by decide) hiia
  apply mem_replaceAll _ (by decide) (Or.inl hngg)
  apply mem_replaceAll _ (by decide) (Or.inl hngk)
  apply mem_replaceAll _ (by decide) (Or.inl hpj)
  apply mem_vocalY_fold hy
  apply mem_replaceAll _ (by decide) (Or.inl hTC)
  apply mem_replaceAll _ (by decide) (Or.inl hTS)
  apply mem_replaceAll _ (by decide) (Or.inl hTJ)
  apply mem_applyRules _ (fun pr hpr =>
    ⟨(by decide : ∀ q ∈ consonantRules, q.1 ≠ []) pr hpr, hcons pr hpr⟩)
  apply mem_applyRules _ (fun pr hpr =>
    ⟨(by decide : ∀ q ∈ vowelRules, q.1 ≠ []) pr hpr, hvow pr hpr⟩)
  apply mem_replaceAll _ (by decide) (Or.inl hch)
  apply mem_replaceAll _ (by decide) (Or.inl hsh)
  apply mem_applyRules _ (fun pr hpr =>
    ⟨(by decide : ∀ q ∈ compoundRules, q.1 ≠ []) pr hpr, hcomp pr hpr⟩)
  apply mem_replaceAll _ (by decide)
    (Or.inl (fun hh => hj (List.mem_singleton.1 hh)))
  apply mem_replaceAll _ (by decide)
    (Or.inl (fun hh => hp2 (List.mem_singleton.1 hh)))
  apply mem_replaceAll _ (by decide)
    (Or.inl (fun hh => hp1 (List.mem_singleton.1 hh)))
  refine List.mem_map.2 ⟨c, ?_, hlow⟩
  apply mem_replaceAll _ (by decide) (Or.inl hS)
  exact hmem

/-- C8: when a direct-notation input contains no standard primary stress
mark but contains a long vowel (`iː`, or failing that `uː`), `translate_ipa`
designates the first such long vowel as the default stress carrier — the
string handed to the rewrite engine is the input with the stress sentinel
inserted before that vowel — and the final output carries that vowel's
accented form (`í`, resp. `ú`); in particular `ʃiː` yields `shí`. -/
theorem claim_C8_long_vowel_default :
    ∀ s : Str, (∀ c ∈ s, directChar c = true) →
      containsSub (("ˈ").toList) s = false →
      ((containsSub (("iː").toList) s = true →
        translateIpa s
          = ipaToSpanish (repOnce (("iː").toList) (SENT ++ ("iː").toList) s) ∧
        'í' ∈ translateIpa s) ∧
       (containsSub (("iː").toList) s = false →
        containsSub (("uː").toList) s = true →
        translateIpa s
          = ipaToSpanish (repOnce (("uː").toList) (SENT ++ ("uː").toList) s) ∧
        'ú' ∈ translateIpa s)) ∧
      translateIpa (("ʃiː").toList) = ("shí").toList := by
  intro s hdir hmark
  refine ⟨⟨?_, ?_⟩, by decide⟩
  · intro hiv
    have hm' : containsSub (['ˈ'] : Str) s = false := hmark
    have hi' : containsSub (['i', 'ː'] : Str) s = true := hiv
    have heq : translateIpa s
        = ipaToSpanish (repOnce (("iː").toList) (SENT ++ ("iː").toList) s) := by
      simp [translateIpa, hm', hi']
    refine ⟨heq, ?_⟩
    rw [heq]
    obtain ⟨A, B, hsEq, hrep⟩ := repOnce_split (by decide) hiv
    rw [hrep]
    have hAc : ∀ c ∈ A, directChar c = true := by
      intro c hcm
      apply hdir c
      rw [hsEq]
      exact List.mem_append_left _ hcm
    have hBc : ∀ c ∈ B, directChar c = true := by
      intro c hcm
      apply hdir c
      rw [hsEq]
      exact List.mem_append_right _ (List.mem_append_right _ hcm)
    have hA : '~' ∉ A := not_mem_of_all hAc (by decide)
    have hB : '~' ∉ B := not_mem_of_all hBc (by decide)
    have hSA : 'S' ∉ A := not_mem_of_all hAc (by decide)
    have hSB : 'S' ∉ B := not_mem_of_all hBc (by decide)
    have hstress : applyRules stressPairs (A ++ ((SENT ++ (("iː").toList)) ++ B))
        = A ++ ((MARKA ++ (("í").toList)) ++ B) := by
      have hsp : stressPairs =
          [(SENT ++ ("aʊ").toList, MARKA ++ ("áu").toList),
           (SENT ++ ("aɪ").toList, MARKA ++ ("ái").toList),
           (SENT ++ ("eɪ").toList, MARKA ++ ("éi").toList),
           (SENT ++ ("oʊ").toList, MARKA ++ ("óu").toList),
           (SENT ++ ("ɔɪ").toList, MARKA ++ ("ói").toList)] ++
          ((SENT ++ ("iː").toList, MARKA ++ ("í").toList) ::
           [(SENT ++ ("uː").toList, MARKA ++ ("ú").toList),
            (SENT ++ ("ɑ").toList, MARKA ++ ("á").toList),
            (SENT ++ ("æ").toList, MARKA ++ ("á").toList),
            (SENT ++ ("ʌ").toList, MARKA ++ ("á").toList),
            (SENT ++ ("ɔ").toList, MARKA ++ ("ó").toList),
            (SENT ++ ("ɛ").toList, MARKA ++ ("é").toList),
            (SENT ++ ("ɝ").toList, MARKA ++ ("ér").toList),
            (SENT ++ ("ɪ").toList, MARKA ++ ("í").toList),
            (SENT ++ ("i").toList, MARKA ++ ("í").toList),
            (SENT ++ ("ʊ").toList, MARKA ++ ("ú").toList)]) := by decide
      have hshape : A ++ ((SENT ++ (("iː").toList)) ++ B)
          = A ++ (SENT ++ ('i' :: ((['ː'] : Str) ++ B))) := by simp
      have hpre : applyRules
          [(SENT ++ ("aʊ").toList, MARKA ++ ("áu").toList),
           (SENT ++ ("aɪ").toList, MARKA ++ ("ái").toList),
           (SENT ++ ("eɪ").toList, MARKA ++ ("éi").toList),
           (SENT ++ ("oʊ").toList, MARKA ++ ("óu").toList),
           (SENT ++ ("ɔɪ").toList, MARKA ++ ("ói").toList)]
          (A ++ (SENT ++ ('i' :: ((['ː'] : Str) ++ B))))
          = A ++ (SENT ++ ('i' :: ((['ː'] : Str) ++ B))) := by
        apply applyRules_sent_pre hA hB (by decide) (by decide) (by decide)
        intro pr hpr
        simp only [List.mem_cons, List.not_mem_nil, or_false] at hpr
        rcases hpr with rfl | rfl | rfl | rfl | rfl
        · exact ⟨("aʊ").toList, rfl, by simp [isPref_cons_cons]⟩
        · exact ⟨("aɪ").toList, rfl, by simp [isPref_cons_cons]⟩
        · exact ⟨("eɪ").toList, rfl, by simp [isPref_cons_cons]⟩
        · exact ⟨("oʊ").toList, rfl, by simp [isPref_cons_cons]⟩
        · exact ⟨("ɔɪ").toList, rfl, by simp [isPref_cons_cons]⟩
      have hfire : replaceAll (SENT ++ (("iː").toList)) (MARKA ++ (("í").toList))
          (A ++ (SENT ++ ('i' :: ((['ː'] : Str) ++ B))))
          = A ++ ((MARKA ++ (("í").toList)) ++ B) :=
        sent_fire (MARKA ++ (("í").toList)) hA hB
      have hpost : applyRules
          [(SENT ++ ("uː").toList, MARKA ++ ("ú").toList),
           (SENT ++ ("ɑ").toList, MARKA ++ ("á").toList),
           (SENT ++ ("æ").toList, MARKA ++ ("á").toList),
           (SENT ++ ("ʌ").toList, MARKA ++ ("á").toList),
           (SENT ++ ("ɔ").toList, MARKA ++ ("ó").toList),
           (SENT ++ ("ɛ").toList, MARKA ++ ("é").toList),
           (SENT ++ ("ɝ").toList, MARKA ++ ("ér").toList),
           (SENT ++ ("ɪ").toList, MARKA ++ ("í").toList),
           (SENT ++ ("i").toList, MARKA ++ ("í").toList),
           (SENT ++ ("ʊ").toList, MARKA ++ ("ú").toList)]
          (A ++ ((MARKA ++ (("í").toList)) ++ B))
          = A ++ ((MARKA ++ (("í").toList)) ++ B) := by
        apply applyRules_id_of_char (c := 'S') (by decide)
        intro hmm
        rcases List.mem_append.1 hmm with h1 | h1
        · exact hSA h1
        · rcases List.mem_append.1 h1 with h2 | h2
          · exact absurd h2 (by decide)
          · exact hSB h2
      rw [hsp, applyRules_append, applyRules_cons, hshape, hpre, hfire]
      exact hpost
    unfold ipaToSpanish
    rw [hstress]
    exact mem_afterStress (by decide)
      (List.mem_append_right _ (List.mem_append_left _ (by decide)))
  · intro hni huv
    have hm' : containsSub (['ˈ'] : Str) s = false := hmark
    have hi' : containsSub (['i', 'ː'] : Str) s = false := hni
    have hu' : containsSub (['u', 'ː'] : Str) s = true := huv
    have heq : translateIpa s
        = ipaToSpanish (repOnce (("uː").toList) (SENT ++ ("uː").toList) s) := by
      simp [translateIpa, hm', hi', hu']
    refine ⟨heq, ?_⟩
    rw [heq]
    obtain ⟨A, B, hsEq, hrep⟩ := repOnce_split (by decide) huv
    rw [hrep]
    have hAc : ∀ c ∈ A, directChar c = true := by
      intro c hcm
      apply hdir c
      rw [hsEq]
      exact List.mem_append_left _ hcm
    have hBc : ∀ c ∈ B, directChar c = true := by
      intro c hcm
      apply hdir c
      rw [hsEq]
      exact List.mem_append_right _ (List.mem_append_right _ hcm)
    have hA : '~' ∉ A := not_mem_of_all hAc (by decide)
    have hB : '~' ∉ B := not_mem_of_all hBc (by decide)
    have hSA : 'S' ∉ A := not_mem_of_all hAc (by decide)
    have hSB : 'S' ∉ B := not_mem_of_all hBc (by decide)
    have hstress : applyRules stressPairs (A ++ ((SENT ++ (("uː").toList)) ++ B))
        = A ++ ((MARKA ++ (("ú").toList)) ++ B) := by
      have hsp : stressPairs =
          [(SENT ++ ("aʊ").toList, MARKA ++ ("áu").toList),
           (SENT ++ ("aɪ").toList, MARKA ++ ("ái").toList),
           (SENT ++ ("eɪ").toList, MARKA ++ ("éi").toList),
           (SENT ++ ("oʊ").toList, MARKA ++ ("óu").toList),
           (SENT ++ ("ɔɪ").toList, MARKA ++ ("ói").toList),
           (SENT ++ ("iː").toList, MARKA ++ ("í").toList)] ++
          ((SENT ++ ("uː").toList, MARKA ++ ("ú").toList) ::
           [(SENT ++ ("ɑ").toList, MARKA ++ ("á").toList),
            (SENT ++ ("æ").toList, MARKA ++ ("á").toList),
            (SENT ++ ("ʌ").toList, MARKA ++ ("á").toList),
            (SENT ++ ("ɔ").toList, MARKA ++ ("ó").toList),
            (SENT ++ ("ɛ").toList, MARKA ++ ("é").toList),
            (SENT ++ ("ɝ").toList, MARKA ++ ("ér").toList),
            (SENT ++ ("ɪ").toList, MARKA ++ ("í").toList),
            (SENT ++ ("i").toList, MARKA ++ ("í").toList),
            (SENT ++ ("ʊ").toList, MARKA ++ ("ú").toList)]) := by decide
      have hshape : A ++ ((SENT ++ (("uː").toList)) ++ B)
          = A ++ (SENT ++ ('u' :: ((['ː'] : Str) ++ B))) := by simp
      have hpre : applyRules
          [(SENT ++ ("aʊ").toList, MARKA ++ ("áu").toList),
           (SENT ++ ("aɪ").toList, MARKA ++ ("ái").toList),
           (SENT ++ ("eɪ").toList, MARKA ++ ("éi").toList),
           (SENT ++ ("oʊ").toList, MARKA ++ ("óu").toList),
           (SENT ++ ("ɔɪ").toList, MARKA ++ ("ói").toList),
           (SENT ++ ("iː").toList, MARKA ++ ("í").toList)]
          (A ++ (SENT ++ ('u' :: ((['ː'] : Str) ++ B))))
          = A ++ (SENT ++ ('u' :: ((['ː'] : Str) ++ B))) := by
        apply applyRules_sent_pre hA hB (by decide) (by decide) (by decide)
        intro pr hpr
        simp only [List.mem_cons, List.not_mem_nil, or_false] at hpr
        rcases hpr with rfl | rfl | rfl | rfl | rfl | rfl
        · exact ⟨("aʊ").toList, rfl, by simp [isPref_cons_cons]⟩
        · exact ⟨("aɪ").toList, rfl, by simp [isPref_cons_cons]⟩
        · exact ⟨("eɪ").toList, rfl, by simp [isPref_cons_cons]⟩
        · exact ⟨("oʊ").toList, rfl, by simp [isPref_cons_cons]⟩
        · exact ⟨("ɔɪ").toList, rfl, by simp [isPref_cons_cons]⟩
        · exact ⟨("iː").toList, rfl, by simp [isPref_cons_cons]⟩
      have hfire : replaceAll (SENT ++ (("uː").toList)) (MARKA ++ (("ú").toList))
          (A ++ (SENT ++ ('u' :: ((['ː'] : Str) ++ B))))
          = A ++ ((MARKA ++ (("ú").toList)) ++ B) :=
        sent_fire (MARKA ++ (("ú").toList)) hA hB
      have hpost : applyRules
          [(SENT ++ ("ɑ").toList, MARKA ++ ("á").toList),
           (SENT ++ ("æ").toList, MARKA ++ ("á").toList),
           (SENT ++ ("ʌ").toList, MARKA ++ ("á").toList),
           (SENT ++ ("ɔ").toList, MARKA ++ ("ó").toList),
           (SENT ++ ("ɛ").toList, MARKA ++ ("é").toList),
           (SENT ++ ("ɝ").toList, MARKA ++ ("ér").toList),
           (SENT ++ ("ɪ").toList, MARKA ++ ("í").toList),
           (SENT ++ ("i").toList, MARKA ++ ("í").toList),
           (SENT ++ ("ʊ").toList, MARKA ++ ("ú").toList)]
          (A ++ ((MARKA ++ (("ú").toList)) ++ B))
          = A ++ ((MARKA ++ (("ú").toList)) ++ B) := by
        apply applyRules_id_of_char (c := 'S') (by decide)
        intro hmm
        rcases List.mem_append.1 hmm with h1 | h1
        · exact hSA h1
        · rcases List.mem_append.1 h1 with h2 | h2
          · exact absurd h2 (by decide)
          · exact hSB h2
      rw [hsp, applyRules_append, applyRules_cons, hshape, hpre, hfire]
      exact hpost
    unfold ipaToSpanish
    rw [hstress]
    exact mem_afterStress (by decide)
      (List.mem_append_right _ (List.mem_append_left _ (by decide)))

/-- Witness for C8 at the direct notation `ʃiː`. -/
theorem claim_C8_witness :
    (translateIpa (("ʃiː").toList)
        = ipaToSpanish (repOnce (("iː").toList) (SENT ++ ("iː").toList)
            (("ʃiː").toList)) ∧
      'í' ∈ translateIpa (("ʃiː").toList)) ∧
    translateIpa (("ʃiː").toList) = ("shí").toList :=
  ⟨((claim_C8_long_vowel_default (("ʃiː").toList) (by decide) (by decide)).1).1
      (by decide),
   (claim_C8_long_vowel_default (("ʃiː").toList) (by decide) (by decide)).2⟩

/-! ### Infrastructure: tokens, chunks and joins -/

theorem mem_of_contains {l : List Str} {x : Str} (h : l.contains x = true) :
    x ∈ l := by
  induction l with
  | nil => cases h
  | cons a as ih =>
    rw [List.contains_cons] at h
    rcases Bool.or_eq_true_iff.1 h with h1 | h1
    · rw [eq_of_beq h1]; exact List.mem_cons_self _ _
    · exact List.mem_cons_of_mem _ (ih h1)

theorem lookupT_mem {T : List (Str × Str)} {x : Str}
    (h : x ∈ T.map (fun p => p.1)) :
    ∃ y, lookupT T x = some y ∧ (x, y) ∈ T := by
  induction T with
  | nil => simp at h
  | cons e T ih =>
    by_cases hx : e.1 = x
    · subst hx
      refine ⟨e.2, ?_, ?_⟩
      · simp [lookupT, List.find?_cons]
      · rw [Prod.mk.eta]; exact List.mem_cons_self _ _
    · rw [List.map_cons] at h
      rcases List.mem_cons.1 h with h1 | h1
      · exact absurd h1.symm hx
      · rcases ih h1 with ⟨y, hl, hm⟩
        refine ⟨y, ?_, List.mem_cons_of_mem _ hm⟩
        have hbeq : (e.1 == x) = false := by
          rw [beq_eq_false_iff_ne]; exact hx
        simp only [lookupT, List.find?_cons, hbeq] at hl ⊢
        exact hl

theorem stripD_decomp (t : Str) :
    t = stripD t ++ (t.reverse.takeWhile isStressDigit).reverse ∧
    ∀ c ∈ (t.reverse.takeWhile isStressDigit).reverse, isStressDigit c = true := by
  constructor
  · conv_lhs => rw [← List.reverse_reverse t,
      ← List.takeWhile_append_dropWhile (p := isStressDigit) (l := t.reverse)]
    rw [List.reverse_append]
    rfl
  · intro c hc
    rw [List.mem_reverse] at hc
    exact List.mem_takeWhile_imp hc

theorem validToken_chars {t : Str} (hv : validToken t = true) :
    ∀ c ∈ t, (('A' ≤ c ∧ c ≤ 'Z') ∨ isStressDigit c = true) := by
  intro c hc
  have hmem : stripD t ∈ arpaKeys := mem_of_contains hv
  obtain ⟨hdec, hdig⟩ := stripD_decomp t
  rw [hdec] at hc
  rcases List.mem_append.1 hc with h1 | h1
  · exact Or.inl ((by decide :
      ∀ k ∈ arpaKeys, ∀ c ∈ k, 'A' ≤ c ∧ c ≤ 'Z') _ hmem c h1)
  · exact Or.inr (hdig c h1)

theorem upperChar_id_of_token {c : Char}
    (h : ('A' ≤ c ∧ c ≤ 'Z') ∨ isStressDigit c = true) : upperChar c = c := by
  rcases h with ⟨h1, h2⟩ | hd
  · unfold upperChar
    rw [if_neg (fun hc => absurd (le_trans hc.1 h2) (by decide))]
  · unfold isStressDigit at hd
    rcases Bool.or_eq_true_iff.1 hd with hd' | h2
    · rcases Bool.or_eq_true_iff.1 hd' with h0 | h1
      · rw [eq_of_beq h0]; decide
      · rw [eq_of_beq h1]; decide
    · rw [eq_of_beq h2]; decide

theorem wsChar_false_of_token {c : Char}
    (h : ('A' ≤ c ∧ c ≤ 'Z') ∨ isStressDigit c = true) : wsChar c = false := by
  rcases h with ⟨h1, _⟩ | hd
  · exact wsChar_false_of_ge_A h1
  · unfold isStressDigit at hd
    rcases Bool.or_eq_true_iff.1 hd with hd' | h2
    · rcases Bool.or_eq_true_iff.1 hd' with h0 | h1
      · rw [eq_of_beq h0]; decide
      · rw [eq_of_beq h1]; decide
    · rw [eq_of_beq h2]; decide

theorem validToken_ne_nil {t : Str} (hv : validToken t = true) : t ≠ [] := by
  intro hnil
  subst hnil
  exact absurd (mem_of_contains hv) (by decide)

theorem chunkOf_facts {t : Str} (hv : validToken t = true) :
    '~' ∉ chunkOf t ∧ 'S' ∉ chunkOf t ∧ accentCount (chunkOf t) = 0 ∧
    (∀ c ∈ chunkOf t, lowerChar c = c) ∧
    ('ː' ∈ chunkOf t → stripD t = ("UW").toList) ∧
    chunkOf t ≠ [] ∧ (chunkOf t).headD ' ' ≠ 'ː' := by
  have hmem : stripD t ∈ arpaTable.map (fun p => p.1) := mem_of_contains hv
  obtain ⟨sym, hlk, hpair⟩ := lookupT_mem hmem
  have hco : chunkOf t = sym := by unfold chunkOf; rw [hlk]
  rw [hco]
  have hfacts := (by decide : ∀ e ∈ arpaTable,
    '~' ∉ e.2 ∧ 'S' ∉ e.2 ∧ accentCount e.2 = 0 ∧
    (∀ c ∈ e.2, lowerChar c = c) ∧ ('ː' ∈ e.2 → e.1 = ("UW").toList) ∧
    e.2 ≠ [] ∧ (e.2).headD ' ' ≠ 'ː') (stripD t, sym) hpair
  exact ⟨hfacts.1, hfacts.2.1, hfacts.2.2.1, hfacts.2.2.2.1,
    hfacts.2.2.2.2.1, hfacts.2.2.2.2.2.1, hfacts.2.2.2.2.2.2⟩

theorem joinL_append (xs ys : List Str) :
    joinL (xs ++ ys) = joinL xs ++ joinL ys := by
  induction xs with
  | nil => rfl
  | cons x xs ih =>
    show x ++ joinL (xs ++ ys) = (x ++ joinL xs) ++ joinL ys
    rw [ih, List.append_assoc]

theorem mem_joinL {c : Char} {ls : List Str} (h : c ∈ joinL ls) :
    ∃ l ∈ ls, c ∈ l := by
  induction ls with
  | nil => cases h
  | cons l ls ih =>
    have h' : c ∈ l ++ joinL ls := h
    rcases List.mem_append.1 h' with h1 | h1
    · exact ⟨l, List.mem_cons_self _ _, h1⟩
    · rcases ih h1 with ⟨u, hu, hcu⟩
      exact ⟨u, List.mem_cons_of_mem _ hu, hcu⟩

theorem countP_joinL_zero {f : Char → Bool} {ls : List Str}
    (h : ∀ l ∈ ls, countP f l = 0) : countP f (joinL ls) = 0 := by
  induction ls with
  | nil => rfl
  | cons l ls ih =>
    show countP f (l ++ joinL ls) = 0
    rw [countP_append, h l (List.mem_cons_self _ _),
      ih (fun u hu => h u (List.mem_cons_of_mem _ hu))]

theorem joinChunks_facts {ts : List Str} (hv : ∀ t ∈ ts, validToken t = true)
    (hUW : ∀ t ∈ ts, stripD t ≠ ("UW").toList) :
    '~' ∉ joinChunks ts ∧ 'S' ∉ joinChunks ts ∧
    accentCount (joinChunks ts) = 0 ∧
    (∀ c ∈ joinChunks ts, lowerChar c = c) ∧ 'ː' ∉ joinChunks ts := by
  refine ⟨?_, ?_, ?_, ?_, ?_⟩
  · intro hm
    rcases mem_joinL hm with ⟨l, hl, hcl⟩
    rcases List.mem_map.1 hl with ⟨t, ht, rfl⟩
    exact (chunkOf_facts (hv t ht)).1 hcl
  · intro hm
    rcases mem_joinL hm with ⟨l, hl, hcl⟩
    rcases List.mem_map.1 hl with ⟨t, ht, rfl⟩
    exact (chunkOf_facts (hv t ht)).2.1 hcl
  · apply countP_joinL_zero
    intro l hl
    rcases List.mem_map.1 hl with ⟨t, ht, rfl⟩
    exact (chunkOf_facts (hv t ht)).2.2.1
  · intro c hm
    rcases mem_joinL hm with ⟨l, hl, hcl⟩
    rcases List.mem_map.1 hl with ⟨t, ht, rfl⟩
    exact (chunkOf_facts (hv t ht)).2.2.2.1 c hcl
  · intro hm
    rcases mem_joinL hm with ⟨l, hl, hcl⟩
    rcases List.mem_map.1 hl with ⟨t, ht, rfl⟩
    exact hUW t ht ((chunkOf_facts (hv t ht)).2.2.2.2.1 hcl)

theorem joinChunks_head {ts : List Str} (hv : ∀ t ∈ ts, validToken t = true) :
    (joinChunks ts).headD ' ' ≠ 'ː' := by
  cases ts with
  | nil => decide
  | cons t ts =>
    have hf := chunkOf_facts (hv t (List.mem_cons_self _ _))
    obtain ⟨c0, cs, hc⟩ := List.exists_cons_of_ne_nil hf.2.2.2.2.2.1
    have hh : (chunkOf t).headD ' ' = c0 := by rw [hc]; rfl
    show ((chunkOf t ++ joinChunks ts)).headD ' ' ≠ 'ː'
    rw [hc]
    show c0 ≠ 'ː'
    rw [← hh]
    exact hf.2.2.2.2.2.2

theorem upperStr_joinSp_id {ts : List Str}
    (h : ∀ t ∈ ts, ∀ c ∈ t, upperChar c = c) :
    upperStr (joinSp ts) = joinSp ts := by
  induction ts with
  | nil => rfl
  | cons t ts ih =>
    cases ts with
    | nil => exact map_id_of_mem (h t (List.mem_cons_self _ _))
    | cons t2 ts2 =>
      show upperStr (t ++ ' ' :: joinSp (t2 :: ts2)) = t ++ ' ' :: joinSp (t2 :: ts2)
      unfold upperStr
      rw [List.map_append, List.map_cons]
      rw [show List.map upperChar t = t from
        map_id_of_mem (h t (List.mem_cons_self _ _))]
      rw [show upperChar ' ' = ' ' from by decide]
      rw [show List.map upperChar (joinSp (t2 :: ts2)) = joinSp (t2 :: ts2) from
        ih (fun u hu => h u (List.mem_cons_of_mem _ hu))]

theorem wordsAux_nil_eq (acc : Str) :
    wordsAux [] acc = if acc.isEmpty then [] else [acc.reverse] := rfl

theorem wordsAux_cons_eq (c : Char) (cs acc : Str) :
    wordsAux (c :: cs) acc =
      if wsChar c then
        (if acc.isEmpty then wordsAux cs [] else acc.reverse :: wordsAux cs [])
      else wordsAux cs (c :: acc) := rfl

theorem wordsAux_skip_word {t : Str} (hws : ∀ c ∈ t, wsChar c = false) :
    ∀ (rest acc : Str), wordsAux (t ++ rest) acc = wordsAux rest (t.reverse ++ acc) := by
  induction t with
  | nil => intro rest acc; rfl
  | cons c t ih =>
    intro rest acc
    show wordsAux (c :: (t ++ rest)) acc = _
    rw [wordsAux_cons_eq, hws c (List.mem_cons_self _ _)]
    rw [if_neg (by simp)]
    rw [ih (fun d hd => hws d (List.mem_cons_of_mem _ hd)) rest (c :: acc),
      List.reverse_cons, List.append_assoc]
    rfl

theorem words_joinSp {ts : List Str}
    (h : ∀ t ∈ ts, t ≠ [] ∧ ∀ c ∈ t, wsChar c = false) :
    words (joinSp ts) = ts := by
  induction ts with
  | nil => rfl
  | cons t ts ih =>
    obtain ⟨htne, htws⟩ := h t (List.mem_cons_self _ _)
    obtain ⟨c0, t', rfl⟩ := List.exists_cons_of_ne_nil htne
    cases ts with
    | nil =>
      have hskip := wordsAux_skip_word htws [] []
      rw [List.append_nil] at hskip
      show wordsAux (c0 :: t') [] = [c0 :: t']
      rw [hskip, wordsAux_nil_eq, if_neg (by simp)]
      simp
    | cons t2 ts2 =>
      show wordsAux ((c0 :: t') ++ ' ' :: joinSp (t2 :: ts2)) [] = _
      rw [wordsAux_skip_word htws]
      rw [wordsAux_cons_eq, if_pos (by decide), if_neg (by simp)]
      rw [show (((c0 :: t').reverse ++ []) : Str).reverse = c0 :: t' from by simp]
      rw [show wordsAux (joinSp (t2 :: ts2)) [] =
        words (joinSp (t2 :: ts2)) from rfl]
      rw [ih (fun u hu => h u (List.mem_cons_of_mem _ hu))]

theorem joinSp_ne_nil {t : Str} (ht : t ≠ []) (ts : List Str) :
    joinSp (t :: ts) ≠ [] := by
  cases ts with
  | nil => exact ht
  | cons t2 ts2 =>
    show t ++ ' ' :: joinSp (t2 :: ts2) ≠ []
    cases t with
    | nil => exact absurd rfl ht
    | cons c cs => simp

/-! ### Infrastructure: the emitter and the chosen index -/

theorem emitFrom_step_plain {idx : Option Nat} {i : Nat} (t : Str) (ts : List Str)
    (hidx : idx ≠ some i) :
    emitFrom idx i (t :: ts) = chunkOf t ++ emitFrom idx (i + 1) ts := by
  show (match lookupT arpaTable (stripD t) with
    | some sym => if idx = some i then SENT ++ sym else sym
    | none => lowerStr (stripD t)) ++ emitFrom idx (i + 1) ts
    = chunkOf t ++ emitFrom idx (i + 1) ts
  congr 1
  unfold chunkOf
  rcases hl : lookupT arpaTable (stripD t) with _ | sym
  · rfl
  · show (if idx = some i then SENT ++ sym else sym) = sym
    exact if_neg hidx

theorem emitFrom_none (ts : List Str) : ∀ i, emitFrom none i ts = joinChunks ts := by
  induction ts with
  | nil => intro i; rfl
  | cons t ts ih =>
    intro i
    rw [emitFrom_step_plain t ts (by simp), ih (i + 1)]
    rfl

theorem emitFrom_past {j : Nat} (ts : List Str) :
    ∀ i, j < i → emitFrom (some j) i ts = joinChunks ts := by
  induction ts with
  | nil => intro i _; rfl
  | cons t ts ih =>
    intro i hj
    rw [emitFrom_step_plain t ts (by simp; omega), ih (i + 1) (by omega)]
    rfl

theorem emitFrom_at {X : List Str} {tσ : Str} {Y : List Str} {sym : Str}
    (hσ : lookupT arpaTable (stripD tσ) = some sym) :
    ∀ i, emitFrom (some (i + X.length)) i (X ++ tσ :: Y)
      = joinChunks X ++ ((SENT ++ sym) ++ joinChunks Y) := by
  induction X with
  | nil =>
    intro i
    show (match lookupT arpaTable (stripD tσ) with
      | some s => if (some (i + 0) : Option Nat) = some i then SENT ++ s else s
      | none => lowerStr (stripD tσ)) ++ emitFrom (some (i + 0)) (i + 1) Y
      = [] ++ ((SENT ++ sym) ++ joinChunks Y)
    rw [hσ]
    show ((if (some (i + 0) : Option Nat) = some i then SENT ++ sym else sym))
      ++ emitFrom (some (i + 0)) (i + 1) Y = [] ++ ((SENT ++ sym) ++ joinChunks Y)
    have hcond : (some (i + 0) : Option Nat) = some i := rfl
    rw [if_pos hcond]
    rw [show (i + 0) = i from rfl]
    rw [emitFrom_past Y (i + 1) (Nat.lt_succ_self i)]
    simp
  | cons x X ih =>
    intro i
    have hlen : (x :: X).length = X.length + 1 := rfl
    have hidx : (some (i + (x :: X).length) : Option Nat) ≠ some i := by
      intro hc
      have hc2 := Option.some.inj hc
      rw [hlen] at hc2
      omega
    rw [List.cons_append]
    rw [emitFrom_step_plain x _ hidx]
    rw [show (i + (x :: X).length) = (i + 1) + X.length from by rw [hlen]; omega]
    rw [ih (i + 1)]
    have hj : joinChunks (x :: X) = chunkOf x ++ joinChunks X := rfl
    rw [hj, List.append_assoc, List.append_assoc]

theorem filter_length_zero {p : Str → Bool} {l : List Str}
    (h : (l.filter p).length = 0) : ∀ u ∈ l, p u = false := by
  intro u hu
  have hnil : l.filter p = [] := List.length_eq_zero.1 h
  cases hpu : p u with
  | false => rfl
  | true =>
    have : u ∈ l.filter p := List.mem_filter.2 ⟨hu, hpu⟩
    rw [hnil] at this
    cases this

theorem filter_length_one_split {p : Str → Bool} {l : List Str}
    (h : (l.filter p).length = 1) :
    ∃ X a Y, l = X ++ a :: Y ∧ p a = true ∧
      (∀ u ∈ X, p u = false) ∧ (∀ u ∈ Y, p u = false) := by
  induction l with
  | nil => simp at h
  | cons b l ih =>
    by_cases hb : p b = true
    · rw [List.filter_cons_of_pos hb] at h
      have h0 : (l.filter p).length = 0 := by
        rw [List.length_cons] at h
        omega
      exact ⟨[], b, l, rfl, hb,
        ⟨fun u hu => absurd hu (List.not_mem_nil u), filter_length_zero h0⟩⟩
    · rw [List.filter_cons_of_neg hb] at h
      rcases ih h with ⟨X, a, Y, rfl, hpa, hX, hY⟩
      refine ⟨b :: X, a, Y, rfl, hpa, ?_, hY⟩
      intro u hu
      rcases List.mem_cons.1 hu with rfl | hu2
      · cases hpu : p u with
        | false => rfl
        | true => exact absurd hpu hb
      · exact hX u hu2

theorem recordedIdxs_split {X : List Str} {t0 : Str} {Y : List Str}
    (hX : ∀ u ∈ X, specPrimVowel u = false) (h0 : specPrimVowel t0 = true)
    (hY : ∀ u ∈ Y, specPrimVowel u = false) :
    recordedIdxs (X ++ t0 :: Y) = [X.length] := by
  induction X with
  | nil =>
    show (if specPrimVowel t0 then [0] else [])
      ++ (recordedIdxs Y).map (· + 1) = [0]
    rw [h0, recordedIdxs_eq_nil hY]
    rfl
  | cons x X ih =>
    show (if specPrimVowel x then [0] else [])
      ++ (recordedIdxs (X ++ t0 :: Y)).map (· + 1) = [(x :: X).length]
    rw [hX x (List.mem_cons_self _ _),
      ih (fun u hu => hX u (List.mem_cons_of_mem _ hu))]
    simp

theorem lastPrimaryIdx_split {X : List Str} {t0 : Str} {Y : List Str}
    (hX : ∀ u ∈ X, isPrimTok u = false) (h0 : isPrimTok t0 = true)
    (hY : ∀ u ∈ Y, isPrimTok u = false) :
    lastPrimaryIdx (X ++ t0 :: Y) = some X.length := by
  rw [lastPrimaryIdx_eq_spec]
  unfold specStressIndex
  rw [recordedIdxs_split (fun u hu => (isPrimTok_eq_spec u) ▸ hX u hu)
    ((isPrimTok_eq_spec t0) ▸ h0) (fun u hu => (isPrimTok_eq_spec u) ▸ hY u hu)]
  rfl

theorem lastPrimaryIdx_none {ts : List Str}
    (h : ∀ u ∈ ts, isPrimTok u = false) : lastPrimaryIdx ts = none := by
  rw [lastPrimaryIdx_eq_spec]
  unfold specStressIndex
  rw [recordedIdxs_eq_nil (fun u hu => (isPrimTok_eq_spec u) ▸ h u hu)]
  rfl

/-! ### Infrastructure: the stress-replacement phase -/

theorem isPref_single_false {c : Char} {B : Str} (h : c ∉ B) :
    isPref [c] B = false := by
  cases B with
  | nil => rfl
  | cons b bs =>
    have hne : (c == b) = false := by
      rw [beq_eq_false_iff_ne]
      intro hc
      exact h (hc ▸ List.mem_cons_self b bs)
    rw [isPref_cons_cons, hne]
    rfl

theorem stress_fire_case {pre post : List (Str × Str)} {v0 : Char} {v' esp A B : Str}
    (hsp : stressPairs = pre ++ ((SENT ++ (v0 :: v'), MARKA ++ esp) :: post))
    (hA : '~' ∉ A) (hB : '~' ∉ B) (hSA : 'S' ∉ A) (hSB : 'S' ∉ B)
    (hv' : '~' ∉ v') (h0t : v0 ≠ '~') (h0S : v0 ≠ 'S')
    (hpre : ∀ pr ∈ pre, ∃ k, pr.1 = SENT ++ k ∧ isPref k (v0 :: (v' ++ B)) = false)
    (hpost : ∀ pr ∈ post, 'S' ∈ pr.1)
    (hSesp : 'S' ∉ esp) :
    applyRules stressPairs (A ++ (SENT ++ ((v0 :: v') ++ B)))
      = A ++ ((MARKA ++ esp) ++ B) := by
  have hshape : A ++ (SENT ++ ((v0 :: v') ++ B))
      = A ++ (SENT ++ (v0 :: (v' ++ B))) := by simp
  have hpre2 : applyRules pre (A ++ (SENT ++ (v0 :: (v' ++ B))))
      = A ++ (SENT ++ (v0 :: (v' ++ B))) :=
    applyRules_sent_pre hA hB hv' h0t h0S hpre
  have hfire : replaceAll (SENT ++ (v0 :: v')) (MARKA ++ esp)
      (A ++ (SENT ++ ((v0 :: v') ++ B))) = A ++ ((MARKA ++ esp) ++ B) :=
    sent_fire (MARKA ++ esp) hA hB
  rw [hsp, applyRules_append, hshape, hpre2, ← hshape, applyRules_cons, hfire]
  apply applyRules_id_of_char hpost
  intro hmm
  rcases List.mem_append.1 hmm with h1 | h1
  · exact hSA h1
  · rcases List.mem_append.1 h1 with h2 | h2
    · rcases List.mem_append.1 h2 with h3 | h3
      · exact absurd h3 (by decide)
      · exact hSesp h3
    · exact hSB h2

/-- The stress phase on the emitter output: the sentinel followed by the
    stressed IPA symbol fires exactly one `STRESS_MAP` rule, leaving the
    accent marker `~~A~~` plus a one-accent Spanish chunk (the `ɔ` case may
    also consume a following `ɪ` through the longer key `ɔɪ`). -/
theorem stress_phase_sym {v A B : Str}
    (hv : v ∈ [("ɑ").toList, ("æ").toList, ("ʌ").toList, ("ɔ").toList,
      ("aʊ").toList, ("aɪ").toList, ("ɛ").toList, ("ɝ").toList,
      ("eɪ").toList, ("ɪ").toList, ("i").toList, ("oʊ").toList,
      ("ɔɪ").toList, ("uː").toList, ("ʊ").toList])
    (hA : '~' ∉ A) (hB : '~' ∉ B) (hSA : 'S' ∉ A) (hSB : 'S' ∉ B)
    (hcolB : 'ː' ∉ B) :
    ∃ esp B2, applyRules stressPairs (A ++ (SENT ++ (v ++ B)))
        = A ++ ((MARKA ++ esp) ++ B2) ∧
      accentCount esp = 1 ∧ 'ː' ∉ esp ∧ 'S' ∉ esp ∧
      (∀ c ∈ esp, lowerChar c = c) ∧ (B2 = B ∨ B = 'ɪ' :: B2) := by
  simp only [List.mem_cons, List.not_mem_nil, or_false] at hv
  rcases hv with rfl | rfl | rfl | rfl | rfl | rfl | rfl | rfl | rfl | rfl | rfl | rfl | rfl | rfl | rfl
  · have hsp : stressPairs =
        [(SENT ++ ("aʊ").toList, MARKA ++ ("áu").toList),
         (SENT ++ ("aɪ").toList, MARKA ++ ("ái").toList),
         (SENT ++ ("eɪ").toList, MARKA ++ ("éi").toList),
         (SENT ++ ("oʊ").toList, MARKA ++ ("óu").toList),
         (SENT ++ ("ɔɪ").toList, MARKA ++ ("ói").toList),
         (SENT ++ ("iː").toList, MARKA ++ ("í").toList),
         (SENT ++ ("uː").toList, MARKA ++ ("ú").toList)] ++
        ((SENT ++ ("ɑ").toList, MARKA ++ ("á").toList) ::
         [(SENT ++ ("æ").toList, MARKA ++ ("á").toList),
          (SENT ++ ("ʌ").toList, MARKA ++ ("á").toList),
          (SENT ++ ("ɔ").toList, MARKA ++ ("ó").toList),
          (SENT ++ ("ɛ").toList, MARKA ++ ("é").toList),
          (SENT ++ ("ɝ").toList, MARKA ++ ("ér").toList),
          (SENT ++ ("ɪ").toList, MARKA ++ ("í").toList),
          (SENT ++ ("i").toList, MARKA ++ ("í").toList),
          (SENT ++ ("ʊ").toList, MARKA ++ ("ú").toList)]) := by decide
    refine ⟨("á").toList, B, ?_, by decide, by decide, by decide,
      by decide, Or.inl rfl⟩
    refine stress_fire_case hsp hA hB hSA hSB (by decide) (by decide)
      (by decide) ?_ (by decide) (by decide)
    intro pr hpr
    simp only [List.mem_cons, List.not_mem_nil, or_false] at hpr
    rcases hpr with rfl | rfl | rfl | rfl | rfl | rfl | rfl
    · exact ⟨("aʊ").toList, rfl, by simp [isPref_cons_cons]⟩
    · exact ⟨("aɪ").toList, rfl, by simp [isPref_cons_cons]⟩
    · exact ⟨("eɪ").toList, rfl, by simp [isPref_cons_cons]⟩
    · exact ⟨("oʊ").toList, rfl, by simp [isPref_cons_cons]⟩
    · exact ⟨("ɔɪ").toList, rfl, by simp [isPref_cons_cons]⟩
    · exact ⟨("iː").toList, rfl, by simp [isPref_cons_cons]⟩
    · exact ⟨("uː").toList, rfl, by simp [isPref_cons_cons]⟩
  · have hsp : stressPairs =
        [(SENT ++ ("aʊ").toList, MARKA ++ ("áu").toList),
         (SENT ++ ("aɪ").toList, MARKA ++ ("ái").toList),
         (SENT ++ ("eɪ").toList, MARKA ++ ("éi").toList),
         (SENT ++ ("oʊ").toList, MARKA ++ ("óu").toList),
         (SENT ++ ("ɔɪ").toList, MARKA ++ ("ói").toList),
         (SENT ++ ("iː").toList, MARKA ++ ("í").toList),
         (SENT ++ ("uː").toList, MARKA ++ ("ú").toList),
         (SENT ++ ("ɑ").toList, MARKA ++ ("á").toList)] ++
        ((SENT ++ ("æ").toList, MARKA ++ ("á").toList) ::
         [(SENT ++ ("ʌ").toList, MARKA ++ ("á").toList),
          (SENT ++ ("ɔ").toList, MARKA ++ ("ó").toList),
          (SENT ++ ("ɛ").toList, MARKA ++ ("é").toList),
          (SENT ++ ("ɝ").toList, MARKA ++ ("ér").toList),
          (SENT ++ ("ɪ").toList, MARKA ++ ("í").toList),
          (SENT ++ ("i").toList, MARKA ++ ("í").toList),
          (SENT ++ ("ʊ").toList, MARKA ++ ("ú").toList)]) := by decide
    refine ⟨("á").toList, B, ?_, by decide, by decide, by decide,
      by decide, Or.inl rfl⟩
    refine stress_fire_case hsp hA hB hSA hSB (by decide) (by decide)
      (by decide) ?_ (by decide) (by decide)
    intro pr hpr
    simp only [List.mem_cons, List.not_mem_nil, or_false] at hpr
    rcases hpr with rfl | rfl | rfl | rfl | rfl | rfl | rfl | rfl
    · exact ⟨("aʊ").toList, rfl, by simp [isPref_cons_cons]⟩
    · exact ⟨("aɪ").toList, rfl, by simp [isPref_cons_cons]⟩
    · exact ⟨("eɪ").toList, rfl, by simp [isPref_cons_cons]⟩
    · exact ⟨("oʊ").toList, rfl, by simp [isPref_cons_cons]⟩
    · exact ⟨("ɔɪ").toList, rfl, by simp [isPref_cons_cons]⟩
    · exact ⟨("iː").toList, rfl, by simp [isPref_cons_cons]⟩
    · exact ⟨("uː").toList, rfl, by simp [isPref_cons_cons]⟩
    · exact ⟨("ɑ").toList, rfl, by simp [isPref_cons_cons]⟩
  · have hsp : stressPairs =
        [(SENT ++ ("aʊ").toList, MARKA ++ ("áu").toList),
         (SENT ++ ("aɪ").toList, MARKA ++ ("ái").toList),
         (SENT ++ ("eɪ").toList, MARKA ++ ("éi").toList),
         (SENT ++ ("oʊ").toList, MARKA ++ ("óu").toList),
         (SENT ++ ("ɔɪ").toList, MARKA ++ ("ói").toList),
         (SENT ++ ("iː").toList, MARKA ++ ("í").toList),
         (SENT ++ ("uː").toList, MARKA ++ ("ú").toList),
         (SENT ++ ("ɑ").toList, MARKA ++ ("á").toList),
         (SENT ++ ("æ").toList, MARKA ++ ("á").toList)] ++
        ((SENT ++ ("ʌ").toList, MARKA ++ ("á").toList) ::
         [(SENT ++ ("ɔ").toList, MARKA ++ ("ó").toList),
          (SENT ++ ("ɛ").toList, MARKA ++ ("é").toList),
          (SENT ++ ("ɝ").toList, MARKA ++ ("ér").toList),
          (SENT ++ ("ɪ").toList, MARKA ++ ("í").toList),
          (SENT ++ ("i").toList, MARKA ++ ("í").toList),
          (SENT ++ ("ʊ").toList, MARKA ++ ("ú").toList)]) := by decide
    refine ⟨("á").toList, B, ?_, by decide, by decide, by decide,
      by decide, Or.inl rfl⟩
    refine stress_fire_case hsp hA hB hSA hSB (by decide) (by decide)
      (by decide) ?_ (by decide) (by decide)
    intro pr hpr
    simp only [List.mem_cons, List.not_mem_nil, or_false] at hpr
    rcases hpr with rfl | rfl | rfl | rfl | rfl | rfl | rfl | rfl | rfl
    · exact ⟨("aʊ").toList, rfl, by simp [isPref_cons_cons]⟩
    · exact ⟨("aɪ").toList, rfl, by simp [isPref_cons_cons]⟩
    · exact ⟨("eɪ").toList, rfl, by simp [isPref_cons_cons]⟩
    · exact ⟨("oʊ").toList, rfl, by simp [isPref_cons_cons]⟩
    · exact ⟨("ɔɪ").toList, rfl, by simp [isPref_cons_cons]⟩
    · exact ⟨("iː").toList, rfl, by simp [isPref_cons_cons]⟩
    · exact ⟨("uː").toList, rfl, by simp [isPref_cons_cons]⟩
    · exact ⟨("ɑ").toList, rfl, by simp [isPref_cons_cons]⟩
    · exact ⟨("æ").toList, rfl, by simp [isPref_cons_cons]⟩
  · by_cases hBh : isPref [('ɪ')] B = true
    · rcases isPref_iff_exists.1 hBh with ⟨B2, rfl⟩
      have hB2 : '~' ∉ B2 := fun hh => hB (List.mem_cons_of_mem _ hh)
      have hSB2 : 'S' ∉ B2 := fun hh => hSB (List.mem_cons_of_mem _ hh)
      have hsp : stressPairs =
          [(SENT ++ ("aʊ").toList, MARKA ++ ("áu").toList),
           (SENT ++ ("aɪ").toList, MARKA ++ ("ái").toList),
           (SENT ++ ("eɪ").toList, MARKA ++ ("éi").toList),
           (SENT ++ ("oʊ").toList, MARKA ++ ("óu").toList)] ++
          ((SENT ++ ("ɔɪ").toList, MARKA ++ ("ói").toList) ::
           [(SENT ++ ("iː").toList, MARKA ++ ("í").toList),
            (SENT ++ ("uː").toList, MARKA ++ ("ú").toList),
            (SENT ++ ("ɑ").toList, MARKA ++ ("á").toList),
            (SENT ++ ("æ").toList, MARKA ++ ("á").toList),
            (SENT ++ ("ʌ").toList, MARKA ++ ("á").toList),
            (SENT ++ ("ɔ").toList, MARKA ++ ("ó").toList),
            (SENT ++ ("ɛ").toList, MARKA ++ ("é").toList),
            (SENT ++ ("ɝ").toList, MARKA ++ ("ér").toList),
            (SENT ++ ("ɪ").toList, MARKA ++ ("í").toList),
            (SENT ++ ("i").toList, MARKA ++ ("í").toList),
            (SENT ++ ("ʊ").toList, MARKA ++ ("ú").toList)]) := by decide
      refine ⟨("ói").toList, B2, ?_, by decide, by decide, by decide,
        by decide, Or.inr rfl⟩
      have hgoal : A ++ (SENT ++ (("ɔ").toList ++ ([('ɪ')] ++ B2)))
          = A ++ (SENT ++ (("ɔɪ").toList ++ B2)) := by simp
      rw [hgoal]
      refine stress_fire_case hsp hA hB2 hSA hSB2 (by decide) (by decide)
        (by decide) ?_ (by decide) (by decide)
      intro pr hpr
      simp only [List.mem_cons, List.not_mem_nil, or_false] at hpr
      rcases hpr with rfl | rfl | rfl | rfl
      · exact ⟨("aʊ").toList, rfl, by simp [isPref_cons_cons]⟩
      · exact ⟨("aɪ").toList, rfl, by simp [isPref_cons_cons]⟩
      · exact ⟨("eɪ").toList, rfl, by simp [isPref_cons_cons]⟩
      · exact ⟨("oʊ").toList, rfl, by simp [isPref_cons_cons]⟩
    · rw [Bool.not_eq_true] at hBh
      have hsp : stressPairs =
          [(SENT ++ ("aʊ").toList, MARKA ++ ("áu").toList),
           (SENT ++ ("aɪ").toList, MARKA ++ ("ái").toList),
           (SENT ++ ("eɪ").toList, MARKA ++ ("éi").toList),
           (SENT ++ ("oʊ").toList, MARKA ++ ("óu").toList),
           (SENT ++ ("ɔɪ").toList, MARKA ++ ("ói").toList),
           (SENT ++ ("iː").toList, MARKA ++ ("í").toList),
           (SENT ++ ("uː").toList, MARKA ++ ("ú").toList),
           (SENT ++ ("ɑ").toList, MARKA ++ ("á").toList),
           (SENT ++ ("æ").toList, MARKA ++ ("á").toList),
           (SENT ++ ("ʌ").toList, MARKA ++ ("á").toList)] ++
          ((SENT ++ ("ɔ").toList, MARKA ++ ("ó").toList) ::
           [(SENT ++ ("ɛ").toList, MARKA ++ ("é").toList),
            (SENT ++ ("ɝ").toList, MARKA ++ ("ér").toList),
            (SENT ++ ("ɪ").toList, MARKA ++ ("í").toList),
            (SENT ++ ("i").toList, MARKA ++ ("í").toList),
            (SENT ++ ("ʊ").toList, MARKA ++ ("ú").toList)]) := by decide
      refine ⟨("ó").toList, B, ?_, by decide, by decide, by decide,
        by decide, Or.inl rfl⟩
      refine stress_fire_case hsp hA hB hSA hSB (by decide) (by decide)
        (by decide) ?_ (by decide) (by decide)
      intro pr hpr
      simp only [List.mem_cons, List.not_mem_nil, or_false] at hpr
      rcases hpr with rfl | rfl | rfl | rfl | rfl | rfl | rfl | rfl | rfl | rfl
      · exact ⟨("aʊ").toList, rfl, by simp [isPref_cons_cons]⟩
      · exact ⟨("aɪ").toList, rfl, by simp [isPref_cons_cons]⟩
      · exact ⟨("eɪ").toList, rfl, by simp [isPref_cons_cons]⟩
      · exact ⟨("oʊ").toList, rfl, by simp [isPref_cons_cons]⟩
      · exact ⟨("ɔɪ").toList, rfl, by simp [isPref_cons_cons, hBh]⟩
      · exact ⟨("iː").toList, rfl, by simp [isPref_cons_cons]⟩
      · exact ⟨("uː").toList, rfl, by simp [isPref_cons_cons]⟩
      · exact ⟨("ɑ").toList, rfl, by simp [isPref_cons_cons]⟩
      · exact ⟨("æ").toList, rfl, by simp [isPref_cons_cons]⟩
      · exact ⟨("ʌ").toList, rfl, by simp [isPref_cons_cons]⟩
  · have hsp : stressPairs =
        ([] : List (Str × Str)) ++
        ((SENT ++ ("aʊ").toList, MARKA ++ ("áu").toList) ::
         [(SENT ++ ("aɪ").toList, MARKA ++ ("ái").toList),
          (SENT ++ ("eɪ").toList, MARKA ++ ("éi").toList),
          (SENT ++ ("oʊ").toList, MARKA ++ ("óu").toList),
          (SENT ++ ("ɔɪ").toList, MARKA ++ ("ói").toList),
          (SENT ++ ("iː").toList, MARKA ++ ("í").toList),
          (SENT ++ ("uː").toList, MARKA ++ ("ú").toList),
          (SENT ++ ("ɑ").toList, MARKA ++ ("á").toList),
          (SENT ++ ("æ").toList, MARKA ++ ("á").toList),
          (SENT ++ ("ʌ").toList, MARKA ++ ("á").toList),
          (SENT ++ ("ɔ").toList, MARKA ++ ("ó").toList),
          (SENT ++ ("ɛ").toList, MARKA ++ ("é").toList),
          (SENT ++ ("ɝ").toList, MARKA ++ ("ér").toList),
          (SENT ++ ("ɪ").toList, MARKA ++ ("í").toList),
          (SENT ++ ("i").toList, MARKA ++ ("í").toList),
          (SENT ++ ("ʊ").toList, MARKA ++ ("ú").toList)]) := by decide
    refine ⟨("áu").toList, B, ?_, by decide, by decide, by decide,
      by decide, Or.inl rfl⟩
    refine stress_fire_case hsp hA hB hSA hSB (by decide) (by decide)
      (by decide) ?_ (by decide) (by decide)
    intro pr hpr
    exact absurd hpr (List.not_mem_nil pr)
  · have hsp : stressPairs =
        [(SENT ++ ("aʊ").toList, MARKA ++ ("áu").toList)] ++
        ((SENT ++ ("aɪ").toList, MARKA ++ ("ái").toList) ::
         [(SENT ++ ("eɪ").toList, MARKA ++ ("éi").toList),
          (SENT ++ ("oʊ").toList, MARKA ++ ("óu").toList),
          (SENT ++ ("ɔɪ").toList, MARKA ++ ("ói").toList),
          (SENT ++ ("iː").toList, MARKA ++ ("í").toList),
          (SENT ++ ("uː").toList, MARKA ++ ("ú").toList),
          (SENT ++ ("ɑ").toList, MARKA ++ ("á").toList),
          (SENT ++ ("æ").toList, MARKA ++ ("á").toList),
          (SENT ++ ("ʌ").toList, MARKA ++ ("á").toList),
          (SENT ++ ("ɔ").toList, MARKA ++ ("ó").toList),
          (SENT ++ ("ɛ").toList, MARKA ++ ("é").toList),
          (SENT ++ ("ɝ").toList, MARKA ++ ("ér").toList),
          (SENT ++ ("ɪ").toList, MARKA ++ ("í").toList),
          (SENT ++ ("i").toList, MARKA ++ ("í").toList),
          (SENT ++ ("ʊ").toList, MARKA ++ ("ú").toList)]) := by decide
    refine ⟨("ái").toList, B, ?_, by decide, by decide, by decide,
      by decide, Or.inl rfl⟩
    refine stress_fire_case hsp hA hB hSA hSB (by decide) (by decide)
      (by decide) ?_ (by decide) (by decide)
    intro pr hpr
    simp only [List.mem_cons, List.not_mem_nil, or_false] at hpr
    rcases hpr with rfl
    · exact ⟨("aʊ").toList, rfl, by simp [isPref_cons_cons]⟩
  · have hsp : stressPairs =
        [(SENT ++ ("aʊ").toList, MARKA ++ ("áu").toList),
         (SENT ++ ("aɪ").toList, MARKA ++ ("ái").toList),
         (SENT ++ ("eɪ").toList, MARKA ++ ("éi").toList),
         (SENT ++ ("oʊ").toList, MARKA ++ ("óu").toList),
         (SENT ++ ("ɔɪ").toList, MARKA ++ ("ói").toList),
         (SENT ++ ("iː").toList, MARKA ++ ("í").toList),
         (SENT ++ ("uː").toList, MARKA ++ ("ú").toList),
         (SENT ++ ("ɑ").toList, MARKA ++ ("á").toList),
         (SENT ++ ("æ").toList, MARKA ++ ("á").toList),
         (SENT ++ ("ʌ").toList, MARKA ++ ("á").toList),
         (SENT ++ ("ɔ").toList, MARKA ++ ("ó").toList)] ++
        ((SENT ++ ("ɛ").toList, MARKA ++ ("é").toList) ::
         [(SENT ++ ("ɝ").toList, MARKA ++ ("ér").toList),
          (SENT ++ ("ɪ").toList, MARKA ++ ("í").toList),
          (SENT ++ ("i").toList, MARKA ++ ("í").toList),
          (SENT ++ ("ʊ").toList, MARKA ++ ("ú").toList)]) := by decide
    refine ⟨("é").toList, B, ?_, by decide, by decide, by decide,
      by decide, Or.inl rfl⟩
    refine stress_fire_case hsp hA hB hSA hSB (by decide) (by decide)
      (by decide) ?_ (by decide) (by decide)
    intro pr hpr
    simp only [List.mem_cons, List.not_mem_nil, or_false] at hpr
    rcases hpr with rfl | rfl | rfl | rfl | rfl | rfl | rfl | rfl | rfl | rfl | rfl
    · exact ⟨("aʊ").toList, rfl, by simp [isPref_cons_cons]⟩
    · exact ⟨("aɪ").toList, rfl, by simp [isPref_cons_cons]⟩
    · exact ⟨("eɪ").toList, rfl, by simp [isPref_cons_cons]⟩
    · exact ⟨("oʊ").toList, rfl, by simp [isPref_cons_cons]⟩
    · exact ⟨("ɔɪ").toList, rfl, by simp [isPref_cons_cons]⟩
    · exact ⟨("iː").toList, rfl, by simp [isPref_cons_cons]⟩
    · exact ⟨("uː").toList, rfl, by simp [isPref_cons_cons]⟩
    · exact ⟨("ɑ").toList, rfl, by simp [isPref_cons_cons]⟩
    · exact ⟨("æ").toList, rfl, by simp [isPref_cons_cons]⟩
    · exact ⟨("ʌ").toList, rfl, by simp [isPref_cons_cons]⟩
    · exact ⟨("ɔ").toList, rfl, by simp [isPref_cons_cons]⟩
  · have hsp : stressPairs =
        [(SENT ++ ("aʊ").toList, MARKA ++ ("áu").toList),
         (SENT ++ ("aɪ").toList, MARKA ++ ("ái").toList),
         (SENT ++ ("eɪ").toList, MARKA ++ ("éi").toList),
         (SENT ++ ("oʊ").toList, MARKA ++ ("óu").toList),
         (SENT ++ ("ɔɪ").toList, MARKA ++ ("ói").toList),
         (SENT ++ ("iː").toList, MARKA ++ ("í").toList),
         (SENT ++ ("uː").toList, MARKA ++ ("ú").toList),
         (SENT ++ ("ɑ").toList, MARKA ++ ("á").toList),
         (SENT ++ ("æ").toList, MARKA ++ ("á").toList),
         (SENT ++ ("ʌ").toList, MARKA ++ ("á").toList),
         (SENT ++ ("ɔ").toList, MARKA ++ ("ó").toList),
         (SENT ++ ("ɛ").toList, MARKA ++ ("é").toList)] ++
        ((SENT ++ ("ɝ").toList, MARKA ++ ("ér").toList) ::
         [(SENT ++ ("ɪ").toList, MARKA ++ ("í").toList),
          (SENT ++ ("i").toList, MARKA ++ ("í").toList),
          (SENT ++ ("ʊ").toList, MARKA ++ ("ú").toList)]) := by decide
    refine ⟨("ér").toList, B, ?_, by decide, by decide, by decide,
      by decide, Or.inl rfl⟩
    refine stress_fire_case hsp hA hB hSA hSB (by decide) (by decide)
      (by decide) ?_ (by decide) (by decide)
    intro pr hpr
    simp only [List.mem_cons, List.not_mem_nil, or_false] at hpr
    rcases hpr with rfl | rfl | rfl | rfl | rfl | rfl | rfl | rfl | rfl | rfl | rfl | rfl
    · exact ⟨("aʊ").toList, rfl, by simp [isPref_cons_cons]⟩
    · exact ⟨("aɪ").toList, rfl, by simp [isPref_cons_cons]⟩
    · exact ⟨("eɪ").toList, rfl, by simp [isPref_cons_cons]⟩
    · exact ⟨("oʊ").toList, rfl, by simp [isPref_cons_cons]⟩
    · exact ⟨("ɔɪ").toList, rfl, by simp [isPref_cons_cons]⟩
    · exact ⟨("iː").toList, rfl, by simp [isPref_cons_cons]⟩
    · exact ⟨("uː").toList, rfl, by simp [isPref_cons_cons]⟩
    · exact ⟨("ɑ").toList, rfl, by simp [isPref_cons_cons]⟩
    · exact ⟨("æ").toList, rfl, by simp [isPref_cons_cons]⟩
    · exact ⟨("ʌ").toList, rfl, by simp [isPref_cons_cons]⟩
    · exact ⟨("ɔ").toList, rfl, by simp [isPref_cons_cons]⟩
    · exact ⟨("ɛ").toList, rfl, by simp [isPref_cons_cons]⟩
  · have hsp : stressPairs =
        [(SENT ++ ("aʊ").toList, MARKA ++ ("áu").toList),
         (SENT ++ ("aɪ").toList, MARKA ++ ("ái").toList)] ++
        ((SENT ++ ("eɪ").toList, MARKA ++ ("éi").toList) ::
         [(SENT ++ ("oʊ").toList, MARKA ++ ("óu").toList),
          (SENT ++ ("ɔɪ").toList, MARKA ++ ("ói").toList),
          (SENT ++ ("iː").toList, MARKA ++ ("í").toList),
          (SENT ++ ("uː").toList, MARKA ++ ("ú").toList),
          (SENT ++ ("ɑ").toList, MARKA ++ ("á").toList),
          (SENT ++ ("æ").toList, MARKA ++ ("á").toList),
          (SENT ++ ("ʌ").toList, MARKA ++ ("á").toList),
          (SENT ++ ("ɔ").toList, MARKA ++ ("ó").toList),
          (SENT ++ ("ɛ").toList, MARKA ++ ("é").toList),
          (SENT ++ ("ɝ").toList, MARKA ++ ("ér").toList),
          (SENT ++ ("ɪ").toList, MARKA ++ ("í").toList),
          (SENT ++ ("i").toList, MARKA ++ ("í").toList),
          (SENT ++ ("ʊ").toList, MARKA ++ ("ú").toList)]) := by decide
    refine ⟨("éi").toList, B, ?_, by decide, by decide, by decide,
      by decide, Or.inl rfl⟩
    refine stress_fire_case hsp hA hB hSA hSB (by decide) (by decide)
      (by decide) ?_ (by decide) (by decide)
    intro pr hpr
    simp only [List.mem_cons, List.not_mem_nil, or_false] at hpr
    rcases hpr with rfl | rfl
    · exact ⟨("aʊ").toList, rfl, by simp [isPref_cons_cons]⟩
    · exact ⟨("aɪ").toList, rfl, by simp [isPref_cons_cons]⟩
  · have hsp : stressPairs =
        [(SENT ++ ("aʊ").toList, MARKA ++ ("áu").toList),
         (SENT ++ ("aɪ").toList, MARKA ++ ("ái").toList),
         (SENT ++ ("eɪ").toList, MARKA ++ ("éi").toList),
         (SENT ++ ("oʊ").toList, MARKA ++ ("óu").toList),
         (SENT ++ ("ɔɪ").toList, MARKA ++ ("ói").toList),
         (SENT ++ ("iː").toList, MARKA ++ ("í").toList),
         (SENT ++ ("uː").toList, MARKA ++ ("ú").toList),
         (SENT ++ ("ɑ").toList, MARKA ++ ("á").toList),
         (SENT ++ ("æ").toList, MARKA ++ ("á").toList),
         (SENT ++ ("ʌ").toList, MARKA ++ ("á").toList),
         (SENT ++ ("ɔ").toList, MARKA ++ ("ó").toList),
         (SENT ++ ("ɛ").toList, MARKA ++ ("é").toList),
         (SENT ++ ("ɝ").toList, MARKA ++ ("ér").toList)] ++
        ((SENT ++ ("ɪ").toList, MARKA ++ ("í").toList) ::
         [(SENT ++ ("i").toList, MARKA ++ ("í").toList),
          (SENT ++ ("ʊ").toList, MARKA ++ ("ú").toList)]) := by decide
    refine ⟨("í").toList, B, ?_, by decide, by decide, by decide,
      by decide, Or.inl rfl⟩
    refine stress_fire_case hsp hA hB hSA hSB (by decide) (by decide)
      (by decide) ?_ (by decide) (by decide)
    intro pr hpr
    simp only [List.mem_cons, List.not_mem_nil, or_false] at hpr
    rcases hpr with rfl | rfl | rfl | rfl | rfl | rfl | rfl | rfl | rfl | rfl | rfl | rfl | rfl
    · exact ⟨("aʊ").toList, rfl, by simp [isPref_cons_cons]⟩
    · exact ⟨("aɪ").toList, rfl, by simp [isPref_cons_cons]⟩
    · exact ⟨("eɪ").toList, rfl, by simp [isPref_cons_cons]⟩
    · exact ⟨("oʊ").toList, rfl, by simp [isPref_cons_cons]⟩
    · exact ⟨("ɔɪ").toList, rfl, by simp [isPref_cons_cons]⟩
    · exact ⟨("iː").toList, rfl, by simp [isPref_cons_cons]⟩
    · exact ⟨("uː").toList, rfl, by simp [isPref_cons_cons]⟩
    · exact ⟨("ɑ").toList, rfl, by simp [isPref_cons_cons]⟩
    · exact ⟨("æ").toList, rfl, by simp [isPref_cons_cons]⟩
    · exact ⟨("ʌ").toList, rfl, by simp [isPref_cons_cons]⟩
    · exact ⟨("ɔ").toList, rfl, by simp [isPref_cons_cons]⟩
    · exact ⟨("ɛ").toList, rfl, by simp [isPref_cons_cons]⟩
    · exact ⟨("ɝ").toList, rfl, by simp [isPref_cons_cons]⟩
  · have hsp : stressPairs =
        [(SENT ++ ("aʊ").toList, MARKA ++ ("áu").toList),
         (SENT ++ ("aɪ").toList, MARKA ++ ("ái").toList),
         (SENT ++ ("eɪ").toList, MARKA ++ ("éi").toList),
         (SENT ++ ("oʊ").toList, MARKA ++ ("óu").toList),
         (SENT ++ ("ɔɪ").toList, MARKA ++ ("ói").toList),
         (SENT ++ ("iː").toList, MARKA ++ ("í").toList),
         (SENT ++ ("uː").toList, MARKA ++ ("ú").toList),
         (SENT ++ ("ɑ").toList, MARKA ++ ("á").toList),
         (SENT ++ ("æ").toList, MARKA ++ ("á").toList),
         (SENT ++ ("ʌ").toList, MARKA ++ ("á").toList),
         (SENT ++ ("ɔ").toList, MARKA ++ ("ó").toList),
         (SENT ++ ("ɛ").toList, MARKA ++ ("é").toList),
         (SENT ++ ("ɝ").toList, MARKA ++ ("ér").toList),
         (SENT ++ ("ɪ").toList, MARKA ++ ("í").toList)] ++
        ((SENT ++ ("i").toList, MARKA ++ ("í").toList) ::
         [(SENT ++ ("ʊ").toList, MARKA ++ ("ú").toList)]) := by decide
    refine ⟨("í").toList, B, ?_, by decide, by decide, by decide,
      by decide, Or.inl rfl⟩
    refine stress_fire_case hsp hA hB hSA hSB (by decide) (by decide)
      (by decide) ?_ (by decide) (by decide)
    intro pr hpr
    simp only [List.mem_cons, List.not_mem_nil, or_false] at hpr
    rcases hpr with rfl | rfl | rfl | rfl | rfl | rfl | rfl | rfl | rfl | rfl | rfl | rfl | rfl | rfl
    · exact ⟨("aʊ").toList, rfl, by simp [isPref_cons_cons]⟩
    · exact ⟨("aɪ").toList, rfl, by simp [isPref_cons_cons]⟩
    · exact ⟨("eɪ").toList, rfl, by simp [isPref_cons_cons]⟩
    · exact ⟨("oʊ").toList, rfl, by simp [isPref_cons_cons]⟩
    · exact ⟨("ɔɪ").toList, rfl, by simp [isPref_cons_cons]⟩
    · exact ⟨("iː").toList, rfl, by simp [isPref_cons_cons, isPref_single_false hcolB]⟩
    · exact ⟨("uː").toList, rfl, by simp [isPref_cons_cons]⟩
    · exact ⟨("ɑ").toList, rfl, by simp [isPref_cons_cons]⟩
    · exact ⟨("æ").toList, rfl, by simp [isPref_cons_cons]⟩
    · exact ⟨("ʌ").toList, rfl, by simp [isPref_cons_cons]⟩
    · exact ⟨("ɔ").toList, rfl, by simp [isPref_cons_cons]⟩
    · exact ⟨("ɛ").toList, rfl, by simp [isPref_cons_cons]⟩
    · exact ⟨("ɝ").toList, rfl, by simp [isPref_cons_cons]⟩
    · exact ⟨("ɪ").toList, rfl, by simp [isPref_cons_cons]⟩
  · have hsp : stressPairs =
        [(SENT ++ ("aʊ").toList, MARKA ++ ("áu").toList),
         (SENT ++ ("aɪ").toList, MARKA ++ ("ái").toList),
         (SENT ++ ("eɪ").toList, MARKA ++ ("éi").toList)] ++
        ((SENT ++ ("oʊ").toList, MARKA ++ ("óu").toList) ::
         [(SENT ++ ("ɔɪ").toList, MARKA ++ ("ói").toList),
          (SENT ++ ("iː").toList, MARKA ++ ("í").toList),
          (SENT ++ ("uː").toList, MARKA ++ ("ú").toList),
          (SENT ++ ("ɑ").toList, MARKA ++ ("á").toList),
          (SENT ++ ("æ").toList, MARKA ++ ("á").toList),
          (SENT ++ ("ʌ").toList, MARKA ++ ("á").toList),
          (SENT ++ ("ɔ").toList, MARKA ++ ("ó").toList),
          (SENT ++ ("ɛ").toList, MARKA ++ ("é").toList),
          (SENT ++ ("ɝ").toList, MARKA ++ ("ér").toList),
          (SENT ++ ("ɪ").toList, MARKA ++ ("í").toList),
          (SENT ++ ("i").toList, MARKA ++ ("í").toList),
          (SENT ++ ("ʊ").toList, MARKA ++ ("ú").toList)]) := by decide
    refine ⟨("óu").toList, B, ?_, by decide, by decide, by decide,
      by decide, Or.inl rfl⟩
    refine stress_fire_case hsp hA hB hSA hSB (by decide) (by decide)
      (by decide) ?_ (by decide) (by decide)
    intro pr hpr
    simp only [List.mem_cons, List.not_mem_nil, or_false] at hpr
    rcases hpr with rfl | rfl | rfl
    · exact ⟨("aʊ").toList, rfl, by simp [isPref_cons_cons]⟩
    · exact ⟨("aɪ").toList, rfl, by simp [isPref_cons_cons]⟩
    · exact ⟨("eɪ").toList, rfl, by simp [isPref_cons_cons]⟩
  · have hsp : stressPairs =
        [(SENT ++ ("aʊ").toList, MARKA ++ ("áu").toList),
         (SENT ++ ("aɪ").toList, MARKA ++ ("ái").toList),
         (SENT ++ ("eɪ").toList, MARKA ++ ("éi").toList),
         (SENT ++ ("oʊ").toList, MARKA ++ ("óu").toList)] ++
        ((SENT ++ ("ɔɪ").toList, MARKA ++ ("ói").toList) ::
         [(SENT ++ ("iː").toList, MARKA ++ ("í").toList),
          (SENT ++ ("uː").toList, MARKA ++ ("ú").toList),
          (SENT ++ ("ɑ").toList, MARKA ++ ("á").toList),
          (SENT ++ ("æ").toList, MARKA ++ ("á").toList),
          (SENT ++ ("ʌ").toList, MARKA ++ ("á").toList),
          (SENT ++ ("ɔ").toList, MARKA ++ ("ó").toList),
          (SENT ++ ("ɛ").toList, MARKA ++ ("é").toList),
          (SENT ++ ("ɝ").toList, MARKA ++ ("ér").toList),
          (SENT ++ ("ɪ").toList, MARKA ++ ("í").toList),
          (SENT ++ ("i").toList, MARKA ++ ("í").toList),
          (SENT ++ ("ʊ").toList, MARKA ++ ("ú").toList)]) := by decide
    refine ⟨("ói").toList, B, ?_, by decide, by decide, by decide,
      by decide, Or.inl rfl⟩
    refine stress_fire_case hsp hA hB hSA hSB (by decide) (by decide)
      (by decide) ?_ (by decide) (by decide)
    intro pr hpr
    simp only [List.mem_cons, List.not_mem_nil, or_false] at hpr
    rcases hpr with rfl | rfl | rfl | rfl
    · exact ⟨("aʊ").toList, rfl, by simp [isPref_cons_cons]⟩
    · exact ⟨("aɪ").toList, rfl, by simp [isPref_cons_cons]⟩
    · exact ⟨("eɪ").toList, rfl, by simp [isPref_cons_cons]⟩
    · exact ⟨("oʊ").toList, rfl, by simp [isPref_cons_cons]⟩
  · have hsp : stressPairs =
        [(SENT ++ ("aʊ").toList, MARKA ++ ("áu").toList),
         (SENT ++ ("aɪ").toList, MARKA ++ ("ái").toList),
         (SENT ++ ("eɪ").toList, MARKA ++ ("éi").toList),
         (SENT ++ ("oʊ").toList, MARKA ++ ("óu").toList),
         (SENT ++ ("ɔɪ").toList, MARKA ++ ("ói").toList),
         (SENT ++ ("iː").toList, MARKA ++ ("í").toList)] ++
        ((SENT ++ ("uː").toList, MARKA ++ ("ú").toList) ::
         [(SENT ++ ("ɑ").toList, MARKA ++ ("á").toList),
          (SENT ++ ("æ").toList, MARKA ++ ("á").toList),
          (SENT ++ ("ʌ").toList, MARKA ++ ("á").toList),
          (SENT ++ ("ɔ").toList, MARKA ++ ("ó").toList),
          (SENT ++ ("ɛ").toList, MARKA ++ ("é").toList),
          (SENT ++ ("ɝ").toList, MARKA ++ ("ér").toList),
          (SENT ++ ("ɪ").toList, MARKA ++ ("í").toList),
          (SENT ++ ("i").toList, MARKA ++ ("í").toList),
          (SENT ++ ("ʊ").toList, MARKA ++ ("ú").toList)]) := by decide
    refine ⟨("ú").toList, B, ?_, by decide, by decide, by decide,
      by decide, Or.inl rfl⟩
    refine stress_fire_case hsp hA hB hSA hSB (by decide) (by decide)
      (by decide) ?_ (by decide) (by decide)
    intro pr hpr
    simp only [List.mem_cons, List.not_mem_nil, or_false] at hpr
    rcases hpr with rfl | rfl | rfl | rfl | rfl | rfl
    · exact ⟨("aʊ").toList, rfl, by simp [isPref_cons_cons]⟩
    · exact ⟨("aɪ").toList, rfl, by simp [isPref_cons_cons]⟩
    · exact ⟨("eɪ").toList, rfl, by simp [isPref_cons_cons]⟩
    · exact ⟨("oʊ").toList, rfl, by simp [isPref_cons_cons]⟩
    · exact ⟨("ɔɪ").toList, rfl, by simp [isPref_cons_cons]⟩
    · exact ⟨("iː").toList, rfl, by simp [isPref_cons_cons]⟩
  · have hsp : stressPairs =
        [(SENT ++ ("aʊ").toList, MARKA ++ ("áu").toList),
         (SENT ++ ("aɪ").toList, MARKA ++ ("ái").toList),
         (SENT ++ ("eɪ").toList, MARKA ++ ("éi").toList),
         (SENT ++ ("oʊ").toList, MARKA ++ ("óu").toList),
         (SENT ++ ("ɔɪ").toList, MARKA ++ ("ói").toList),
         (SENT ++ ("iː").toList, MARKA ++ ("í").toList),
         (SENT ++ ("uː").toList, MARKA ++ ("ú").toList),
         (SENT ++ ("ɑ").toList, MARKA ++ ("á").toList),
         (SENT ++ ("æ").toList, MARKA ++ ("á").toList),
         (SENT ++ ("ʌ").toList, MARKA ++ ("á").toList),
         (SENT ++ ("ɔ").toList, MARKA ++ ("ó").toList),
         (SENT ++ ("ɛ").toList, MARKA ++ ("é").toList),
         (SENT ++ ("ɝ").toList, MARKA ++ ("ér").toList),
         (SENT ++ ("ɪ").toList, MARKA ++ ("í").toList),
         (SENT ++ ("i").toList, MARKA ++ ("í").toList)] ++
        ((SENT ++ ("ʊ").toList, MARKA ++ ("ú").toList) ::
         ([] : List (Str × Str))) := by decide
    refine ⟨("ú").toList, B, ?_, by decide, by decide, by decide,
      by decide, Or.inl rfl⟩
    refine stress_fire_case hsp hA hB hSA hSB (by decide) (by decide)
      (by decide) ?_ (by decide) (by decide)
    intro pr hpr
    simp only [List.mem_cons, List.not_mem_nil, or_false] at hpr
    rcases hpr with rfl | rfl | rfl | rfl | rfl | rfl | rfl | rfl | rfl | rfl | rfl | rfl | rfl | rfl | rfl
    · exact ⟨("aʊ").toList, rfl, by simp [isPref_cons_cons]⟩
    · exact ⟨("aɪ").toList, rfl, by simp [isPref_cons_cons]⟩
    · exact ⟨("eɪ").toList, rfl, by simp [isPref_cons_cons]⟩
    · exact ⟨("oʊ").toList, rfl, by simp [isPref_cons_cons]⟩
    · exact ⟨("ɔɪ").toList, rfl, by simp [isPref_cons_cons]⟩
    · exact ⟨("iː").toList, rfl, by simp [isPref_cons_cons]⟩
    · exact ⟨("uː").toList, rfl, by simp [isPref_cons_cons]⟩
    · exact ⟨("ɑ").toList, rfl, by simp [isPref_cons_cons]⟩
    · exact ⟨("æ").toList, rfl, by simp [isPref_cons_cons]⟩
    · exact ⟨("ʌ").toList, rfl, by simp [isPref_cons_cons]⟩
    · exact ⟨("ɔ").toList, rfl, by simp [isPref_cons_cons]⟩
    · exact ⟨("ɛ").toList, rfl, by simp [isPref_cons_cons]⟩
    · exact ⟨("ɝ").toList, rfl, by simp [isPref_cons_cons]⟩
    · exact ⟨("ɪ").toList, rfl, by simp [isPref_cons_cons]⟩
    · exact ⟨("i").toList, rfl, by simp [isPref_cons_cons]⟩

/-! ### Infrastructure: accent-count preservation through the tail phases -/

theorem accent_replaceAll (p r : Str) (hp : p ≠ [])
    (hc : countP accentChar p = countP accentChar r) (s : Str) :
    accentCount (replaceAll p r s) = accentCount s :=
  countP_replaceAll accentChar s hp hc

theorem accent_applyRules (R : List (Str × Str))
    (hR : ∀ pr ∈ R, pr.1 ≠ [] ∧ countP accentChar pr.1 = countP accentChar pr.2)
    (s : Str) :
    accentCount (applyRules R s) = accentCount s :=
  countP_applyRules accentChar s hR

theorem not_mem_replaceAll_exp (p r : Str) {c : Char} (s : Str) (hp : p ≠ [])
    (hcr : c ∉ r) (hcs : c ∉ s) : c ∉ replaceAll p r s :=
  not_mem_replaceAll s hp hcr hcs

theorem not_mem_applyRules_exp (R : List (Str × Str)) {c : Char} (s : Str)
    (hR : ∀ pr ∈ R, pr.1 ≠ [] ∧ c ∉ pr.2) (hs : c ∉ s) : c ∉ applyRules R s :=
  not_mem_applyRules s hR hs

theorem accent_vocalY_step (s : Str) (v : Char) :
    accentCount (vocalYStep s v) = accentCount s := by
  unfold vocalYStep
  by_cases he : endsW [v, 'y'] s = true
  · rw [if_pos he]
    rcases endsW_two he with ⟨t, rfl⟩
    have hdl : (t ++ [v, 'y']).dropLast = t ++ [v] := by
      rw [show t ++ [v, 'y'] = (t ++ [v]) ++ ['y'] by simp]
      exact List.dropLast_concat
    rw [hdl]
    show countP accentChar ((t ++ [v]) ++ ('s' :: ['h']))
      = countP accentChar (t ++ [v, 'y'])
    have e1 : countP accentChar ((t ++ [v]) ++ ('s' :: ['h']))
        = countP accentChar t + countP accentChar [v]
          + countP accentChar ('s' :: ['h']) := by
      rw [countP_append, countP_append]
    have e2 : countP accentChar (t ++ [v, 'y'])
        = countP accentChar t + countP accentChar [v, 'y'] := countP_append _ _ _
    have e3 : countP accentChar ([v, 'y'] : Str)
        = countP accentChar [v] + countP accentChar (['y'] : Str) := by
      rw [show ([v, 'y'] : Str) = [v] ++ ['y'] from rfl, countP_append]
    rw [e1, e2, e3, (by decide : countP accentChar (['y'] : Str) = 0),
      (by decide : countP accentChar ('s' :: ['h']) = 0)]
    omega
  · rw [if_neg he]

theorem accent_vocalY_fold (vl s : Str) :
    accentCount (vl.foldl vocalYStep s) = accentCount s := by
  induction vl generalizing s with
  | nil => rfl
  | cons v vl ih =>
    rw [List.foldl_cons, ih, accent_vocalY_step]

/-- The vowel phase preserves the number of accents on a `ː`-free string:
    the two accent-introducing rules (`iː → í`, `uː → ú`) cannot fire. -/
theorem accent_vowelPhase {z : Str} (hz : 'ː' ∉ z) :
    accentCount (applyRules vowelRules z) = accentCount z := by
  have hv : vowelRules =
      (("iː").toList, ("í").toList) ::
      ([(("ɪ").toList, ("i").toList), (("ɛ").toList, ("e").toList),
        (("æ").toList, ("a").toList), (("ɑ").toList, ("a").toList),
        (("ʌ").toList, ("a").toList), (("e").toList, ("e").toList),
        (("ə").toList, ("a").toList), (("ɔ").toList, ("o").toList),
        (("ʊ").toList, ("u").toList), (("aʊ").toList, ("au").toList),
        (("oʊ").toList, ("ou").toList)] ++
       ((("uː").toList, ("ú").toList) ::
        [(("ɝ").toList, ("er").toList), (("ɚ").toList, ("er").toList)])) := by
    decide
  have h1 : replaceAll (("iː").toList) (("í").toList) z = z :=
    replaceAll_no_match (containsSub_eq_false_of_mem_not_mem
      (by decide : 'ː' ∈ ("iː").toList) hz)
  have hzmid : 'ː' ∉ applyRules
      [(("ɪ").toList, ("i").toList), (("ɛ").toList, ("e").toList),
       (("æ").toList, ("a").toList), (("ɑ").toList, ("a").toList),
       (("ʌ").toList, ("a").toList), (("e").toList, ("e").toList),
       (("ə").toList, ("a").toList), (("ɔ").toList, ("o").toList),
       (("ʊ").toList, ("u").toList), (("aʊ").toList, ("au").toList),
       (("oʊ").toList, ("ou").toList)] z :=
    not_mem_applyRules z (by decide) hz
  have h2 : replaceAll (("uː").toList) (("ú").toList)
      (applyRules
        [(("ɪ").toList, ("i").toList), (("ɛ").toList, ("e").toList),
         (("æ").toList, ("a").toList), (("ɑ").toList, ("a").toList),
         (("ʌ").toList, ("a").toList), (("e").toList, ("e").toList),
         (("ə").toList, ("a").toList), (("ɔ").toList, ("o").toList),
         (("ʊ").toList, ("u").toList), (("aʊ").toList, ("au").toList),
         (("oʊ").toList, ("ou").toList)] z)
      = applyRules
        [(("ɪ").toList, ("i").toList), (("ɛ").toList, ("e").toList),
         (("æ").toList, ("a").toList), (("ɑ").toList, ("a").toList),
         (("ʌ").toList, ("a").toList), (("e").toList, ("e").toList),
         (("ə").toList, ("a").toList), (("ɔ").toList, ("o").toList),
         (("ʊ").toList, ("u").toList), (("aʊ").toList, ("au").toList),
         (("oʊ").toList, ("ou").toList)] z :=
    replaceAll_no_match (containsSub_eq_false_of_mem_not_mem
      (by decide : 'ː' ∈ ("uː").toList) hzmid)
  rw [hv, applyRules_cons, h1, applyRules_append, applyRules_cons, h2]
  rw [accent_applyRules
    [(("ɝ").toList, ("er").toList), (("ɚ").toList, ("er").toList)] (by decide)]
  rw [accent_applyRules
    [(("ɪ").toList, ("i").toList), (("ɛ").toList, ("e").toList),
     (("æ").toList, ("a").toList), (("ɑ").toList, ("a").toList),
     (("ʌ").toList, ("a").toList), (("e").toList, ("e").toList),
     (("ə").toList, ("a").toList), (("ɔ").toList, ("o").toList),
     (("ʊ").toList, ("u").toList), (("aʊ").toList, ("au").toList),
     (("oʊ").toList, ("ou").toList)] (by decide)]

/-- All phases after the stress loop preserve the accent count, for any
    input whose sentinels are gone (`'S' ∉ u`), whose lowercasing is
    accent-count-neutral, and whose lowercased form is `ː`-free. -/
theorem accent_afterStress {u : Str} (hS : 'S' ∉ u)
    (hlcnt : accentCount (lowerStr u) = accentCount u)
    (hlcol : 'ː' ∉ lowerStr u) :
    accentCount (afterStress u) = accentCount u := by
  have hu2 : replaceAll SENT [] u = u :=
    replaceAll_no_match (containsSub_eq_false_of_mem_not_mem
      (by decide : 'S' ∈ SENT) hS)
  have hcol4 : 'ː' ∉ replaceAll [('ˈ')] [] (lowerStr u) :=
    not_mem_replaceAll_exp [('ˈ')] [] _ (by decide) (by decide) hlcol
  have hcol5 : 'ː' ∉ replaceAll [('ˌ')] []
      (replaceAll [('ˈ')] [] (lowerStr u)) :=
    not_mem_replaceAll_exp [('ˌ')] [] _ (by decide) (by decide) hcol4
  have hcol6 : 'ː' ∉ replaceAll [('j')] TEMPJ
      (replaceAll [('ˌ')] [] (replaceAll [('ˈ')] [] (lowerStr u))) :=
    not_mem_replaceAll_exp [('j')] TEMPJ _ (by decide) (by decide) hcol5
  have hcol7 : 'ː' ∉ applyRules compoundRules
      (replaceAll [('j')] TEMPJ
        (replaceAll [('ˌ')] [] (replaceAll [('ˈ')] [] (lowerStr u)))) :=
    not_mem_applyRules_exp compoundRules _ (by decide) hcol6
  have hcol8 : 'ː' ∉ replaceAll (("sh").toList) TEMPSH
      (applyRules compoundRules
        (replaceAll [('j')] TEMPJ
          (replaceAll [('ˌ')] [] (replaceAll [('ˈ')] [] (lowerStr u))))) :=
    not_mem_replaceAll_exp (("sh").toList) TEMPSH _ (by decide) (by decide) hcol7
  have hcol9 : 'ː' ∉ replaceAll (("ch").toList) TEMPCH
      (replaceAll (("sh").toList) TEMPSH
        (applyRules compoundRules
          (replaceAll [('j')] TEMPJ
            (replaceAll [('ˌ')] []
              (replaceAll [('ˈ')] [] (lowerStr u)))))) :=
    not_mem_replaceAll_exp (("ch").toList) TEMPCH _ (by decide) (by decide) hcol8
  simp only [afterStress]
  rw [hu2]
  rw [accent_replaceAll MARKALOW [] (by decide) (by decide)]
  rw [accent_replaceAll (("ii").toList) (("ie").toList) (by decide) (by decide)]
  rw [accent_replaceAll (("íi").toList) (("íe").toList) (by decide) (by decide)]
  rw [accent_replaceAll (("ngg").toList) (("ng").toList) (by decide) (by decide)]
  rw [accent_replaceAll (("ngk").toList) (("nk").toList) (by decide) (by decide)]
  rw [accent_replaceAll (("pj").toList) (("pi").toList) (by decide) (by decide)]
  rw [accent_vocalY_fold]
  rw [accent_replaceAll TEMPCH (("ch").toList) (by decide) (by decide)]
  rw [accent_replaceAll TEMPSH (("sh").toList) (by decide) (by decide)]
  rw [accent_replaceAll TEMPJ [('i')] (by decide) (by decide)]
  rw [accent_applyRules consonantRules (by decide)]
  rw [accent_vowelPhase hcol9]
  rw [accent_replaceAll (("ch").toList) TEMPCH (by decide) (by decide)]
  rw [accent_replaceAll (("sh").toList) TEMPSH (by decide) (by decide)]
  rw [accent_applyRules compoundRules (by decide)]
  rw [accent_replaceAll [('j')] TEMPJ (by decide) (by decide)]
  rw [accent_replaceAll [('ˌ')] [] (by decide) (by decide)]
  rw [accent_replaceAll [('ˈ')] [] (by decide) (by decide)]
  exact hlcnt

/-- On a space-joined valid token sequence, `arpabet_to_ipa` is the emitter
    run at the last-primary index: split undoes the join, and uppercasing
    fixes tokens drawn from the table. -/
theorem arpabetToIpa_joinSp {ts : List Str} (hts : ts ≠ [])
    (hval : ∀ t ∈ ts, validToken t = true) :
    arpabetToIpa (joinSp ts) = emitFrom (lastPrimaryIdx ts) 0 ts := by
  obtain ⟨t0, ts0, rfl⟩ := List.exists_cons_of_ne_nil hts
  have hup : upperStr (joinSp (t0 :: ts0)) = joinSp (t0 :: ts0) :=
    upperStr_joinSp_id (fun t ht c hc =>
      upperChar_id_of_token (validToken_chars (hval t ht) c hc))
  have hw : words (joinSp (t0 :: ts0)) = t0 :: ts0 :=
    words_joinSp (fun t ht =>
      ⟨validToken_ne_nil (hval t ht),
       fun c hc => wsChar_false_of_token (validToken_chars (hval t ht) c hc)⟩)
  have hne : joinSp (t0 :: ts0) ≠ [] :=
    joinSp_ne_nil (validToken_ne_nil (hval t0 (List.mem_cons_self _ _))) ts0
  have hempty : (joinSp (t0 :: ts0)).isEmpty = false := by
    cases hj : joinSp (t0 :: ts0) with
    | nil => exact absurd hj hne
    | cons a l => rfl
  unfold arpabetToIpa
  rw [hup, hw, hempty, if_neg Bool.false_ne_true]

/-- C3 (amended): over token sequences drawn from the ARPABET table (with
optional stress digits) in which every `UW` token carries the primary tag,
the pipeline emits exactly one accent mark when exactly one vowel token is
primary-tagged, and none when no token is.  (The restriction on `UW` is
forced: its unstressed mapping `uː` is itself rewritten to the accented
`ú`, which is what refutes the claim as stated.) -/
theorem claim_C3_amended :
    ∀ ts : List Str, (∀ t ∈ ts, validToken t = true) →
      (∀ t ∈ ts, isUWTok t = true → isPrimTok t = true) →
      ((primVowelCount ts = 1 →
        accentCount (ipaToSpanish (arpabetToIpa (joinSp ts))) = 1) ∧
       (primVowelCount ts = 0 →
        accentCount (ipaToSpanish (arpabetToIpa (joinSp ts))) = 0)) := by
  intro ts hval hUW
  constructor
  · intro h1
    have h1' : (ts.filter isPrimTok).length = 1 := h1
    obtain ⟨X, tσ, Y, hsplit, hp, hX, hY⟩ := filter_length_one_split h1'
    subst hsplit
    have hts : X ++ tσ :: Y ≠ [] := by simp
    have hvalσ : validToken tσ = true :=
      hval tσ (List.mem_append_right _ (List.mem_cons_self _ _))
    have hvalX : ∀ t ∈ X, validToken t = true :=
      fun t ht => hval t (List.mem_append_left _ ht)
    have hvalY : ∀ t ∈ Y, validToken t = true :=
      fun t ht => hval t (List.mem_append_right _ (List.mem_cons_of_mem _ ht))
    have hUWX : ∀ t ∈ X, stripD t ≠ ("UW").toList := by
      intro t ht hc
      have hpt : isPrimTok t = true := by
        apply hUW t (List.mem_append_left _ ht)
        unfold isUWTok
        rw [hc]
        exact beq_self_eq_true _
      rw [hX t ht] at hpt
      cases hpt
    have hUWY : ∀ t ∈ Y, stripD t ≠ ("UW").toList := by
      intro t ht hc
      have hpt : isPrimTok t = true := by
        apply hUW t (List.mem_append_right _ (List.mem_cons_of_mem _ ht))
        unfold isUWTok
        rw [hc]
        exact beq_self_eq_true _
      rw [hY t ht] at hpt
      cases hpt
    have hidx : lastPrimaryIdx (X ++ tσ :: Y) = some X.length :=
      lastPrimaryIdx_split hX hp hY
    have hmemk : stripD tσ ∈ arpaTable.map (fun p => p.1) := mem_of_contains hvalσ
    obtain ⟨sym, hlook, hpair⟩ := lookupT_mem hmemk
    rw [arpabetToIpa_joinSp hts hval, hidx,
      show (some X.length : Option Nat) = some (0 + X.length) from by
        rw [Nat.zero_add],
      emitFrom_at hlook 0]
    have hstv : stripD tσ ∈ stressedVowels := by
      unfold isPrimTok at hp
      rw [Bool.and_eq_true] at hp
      exact mem_of_contains hp.2
    have hsym15 : sym ∈ [("ɑ").toList, ("æ").toList, ("ʌ").toList, ("ɔ").toList,
        ("aʊ").toList, ("aɪ").toList, ("ɛ").toList, ("ɝ").toList,
        ("eɪ").toList, ("ɪ").toList, ("i").toList, ("oʊ").toList,
        ("ɔɪ").toList, ("uː").toList, ("ʊ").toList] :=
      (by decide : ∀ e ∈ arpaTable, e.1 ∈ stressedVowels →
        e.2 ∈ [("ɑ").toList, ("æ").toList, ("ʌ").toList, ("ɔ").toList,
          ("aʊ").toList, ("aɪ").toList, ("ɛ").toList, ("ɝ").toList,
          ("eɪ").toList, ("ɪ").toList, ("i").toList, ("oʊ").toList,
          ("ɔɪ").toList, ("uː").toList, ("ʊ").toList]) (stripD tσ, sym) hpair hstv
    have hfA := joinChunks_facts hvalX hUWX
    have hfB := joinChunks_facts hvalY hUWY
    have hshape : joinChunks X ++ ((SENT ++ sym) ++ joinChunks Y)
        = joinChunks X ++ (SENT ++ (sym ++ joinChunks Y)) := by
      simp [List.append_assoc]
    unfold ipaToSpanish
    rw [hshape]
    obtain ⟨esp, B2, hfire, hacc1, hcole, hSe, hle, hBor⟩ :=
      stress_phase_sym hsym15 hfA.1 hfB.1 hfA.2.1 hfB.2.1 hfB.2.2.2.2
    rw [hfire]
    have hB2sub : ∀ c, c ∈ B2 → c ∈ joinChunks Y := by
      intro c hc
      rcases hBor with rfl | hBeq
      · exact hc
      · rw [hBeq]
        exact List.mem_cons_of_mem _ hc
    have hSB2 : 'S' ∉ B2 := fun hh => hfB.2.1 (hB2sub _ hh)
    have hcolB2 : 'ː' ∉ B2 := fun hh => hfB.2.2.2.2 (hB2sub _ hh)
    have hlB2 : ∀ c ∈ B2, lowerChar c = c := fun c hc => hfB.2.2.2.1 c (hB2sub c hc)
    have haccB2 : countP accentChar B2 = 0 := by
      rcases hBor with rfl | hBeq
      · exact hfB.2.2.1
      · have hy : countP accentChar ('ɪ' :: B2) = 0 := by
          have hy0 : accentCount (joinChunks Y) = 0 := hfB.2.2.1
          rw [hBeq] at hy0
          exact hy0
        rw [countP_cons, (by decide : accentChar 'ɪ' = false)] at hy
        simpa using hy
    have hA0 : countP accentChar (joinChunks X) = 0 := hfA.2.2.1
    have hacc1' : countP accentChar esp = 1 := hacc1
    have hSu : 'S' ∉ joinChunks X ++ ((MARKA ++ esp) ++ B2) := by
      intro hm
      rcases List.mem_append.1 hm with h1m | h1m
      · exact hfA.2.1 h1m
      · rcases List.mem_append.1 h1m with h2m | h2m
        · rcases List.mem_append.1 h2m with h3m | h3m
          · exact absurd h3m (by decide)
          · exact hSe h3m
        · exact hSB2 h2m
    have hlow : lowerStr (joinChunks X ++ ((MARKA ++ esp) ++ B2))
        = joinChunks X ++ ((MARKALOW ++ esp) ++ B2) := by
      unfold lowerStr
      rw [List.map_append, List.map_append, List.map_append]
      rw [map_id_of_mem hfA.2.2.2.1,
        show List.map lowerChar MARKA = MARKALOW from by decide,
        map_id_of_mem hle, map_id_of_mem hlB2]
    have hcnt : accentCount (joinChunks X ++ ((MARKA ++ esp) ++ B2)) = 1 := by
      show countP accentChar (joinChunks X ++ ((MARKA ++ esp) ++ B2)) = 1
      rw [countP_append, countP_append, countP_append,
        hA0, (by decide : countP accentChar MARKA = 0), hacc1', haccB2]
    have hlcnt : accentCount (lowerStr (joinChunks X ++ ((MARKA ++ esp) ++ B2)))
        = accentCount (joinChunks X ++ ((MARKA ++ esp) ++ B2)) := by
      rw [hlow, hcnt]
      show countP accentChar (joinChunks X ++ ((MARKALOW ++ esp) ++ B2)) = 1
      rw [countP_append, countP_append, countP_append,
        hA0, (by decide : countP accentChar MARKALOW = 0), hacc1', haccB2]
    have hlcol : 'ː' ∉ lowerStr (joinChunks X ++ ((MARKA ++ esp) ++ B2)) := by
      rw [hlow]
      intro hm
      rcases List.mem_append.1 hm with h1m | h1m
      · exact hfA.2.2.2.2 h1m
      · rcases List.mem_append.1 h1m with h2m | h2m
        · rcases List.mem_append.1 h2m with h3m | h3m
          · exact absurd h3m (by decide)
          · exact hcole h3m
        · exact hcolB2 h2m
    rw [accent_afterStress hSu hlcnt hlcol]
    exact hcnt
  · intro h0
    cases ts with
    | nil => decide
    | cons t0 ts0 =>
      have hts : (t0 :: ts0 : List Str) ≠ [] := by simp
      have h0' : ((t0 :: ts0).filter isPrimTok).length = 0 := h0
      have hallnp : ∀ u ∈ (t0 :: ts0), isPrimTok u = false := filter_length_zero h0'
      have hUWall : ∀ t ∈ (t0 :: ts0), stripD t ≠ ("UW").toList := by
        intro t ht hc
        have hpt : isPrimTok t = true := by
          apply hUW t ht
          unfold isUWTok
          rw [hc]
          exact beq_self_eq_true _
        rw [hallnp t ht] at hpt
        cases hpt
      rw [arpabetToIpa_joinSp hts hval, lastPrimaryIdx_none hallnp, emitFrom_none]
      have hf := joinChunks_facts hval hUWall
      unfold ipaToSpanish
      have hstid : applyRules stressPairs (joinChunks (t0 :: ts0))
          = joinChunks (t0 :: ts0) :=
        applyRules_id_of_char (by decide : ∀ pr ∈ stressPairs, 'S' ∈ pr.1) hf.2.1
      rw [hstid]
      have hlowid : lowerStr (joinChunks (t0 :: ts0)) = joinChunks (t0 :: ts0) :=
        map_id_of_mem hf.2.2.2.1
      rw [accent_afterStress hf.2.1 (by rw [hlowid])
        (by rw [hlowid]; exact hf.2.2.2.2)]
      exact hf.2.2.1

/-- Witness for C3: the sequence `HH EH1 L OW0` (one primary vowel) yields
    exactly one accent mark. -/
theorem claim_C3_witness :
    ((∀ t ∈ [("HH").toList, ("EH1").toList, ("L").toList, ("OW0").toList],
        validToken t = true) ∧
     (∀ t ∈ [("HH").toList, ("EH1").toList, ("L").toList, ("OW0").toList],
        isUWTok t = true → isPrimTok t = true) ∧
     primVowelCount
       [("HH").toList, ("EH1").toList, ("L").toList, ("OW0").toList] = 1) ∧
    accentCount (ipaToSpanish (arpabetToIpa
      (joinSp [("HH").toList, ("EH1").toList, ("L").toList, ("OW0").toList]))) = 1 :=
  ⟨⟨by decide, by decide, by decide⟩,
   (claim_C3_amended
     [("HH").toList, ("EH1").toList, ("L").toList, ("OW0").toList]
     (by decide) (by decide)).1 (by decide)⟩

/-- C1 (counterexample): there is no manual-override set — corpus variants
for `saturday` are not ignored.  Adding the alternate line
`SATURDAY(2)  S AE1 T ER0 D EY2` to a corpus changes the stored
pronunciation of `saturday`, which would be impossible if a literal
hand-specified sequence were used and all corpus variants ignored. -/
theorem claim_C1_counterexample :
    lookupT (loadFromLines [(("SATURDAY  HH AH0").toList)]) (("saturday").toList)
      ≠ lookupT (loadFromLines [(("SATURDAY  HH AH0").toList),
          (("SATURDAY(2)  S AE1 T ER0 D EY2").toList)]) (("saturday").toList) := by
  decide

/-- C1 (amended): the loader has no manual-override set; `saturday` is
handled by the ordinary corpus machinery like any other word, and
transliterating its corpus pronunciation `S AE1 T ER0 D EY2` produces the
final output `sáterdei` through the normal pipeline. -/
theorem claim_C1_amended :
    lookupT (loadFromLines [(("SATURDAY  S AE1 T ER0 D EY2").toList)])
        (("saturday").toList)
      = some (arpabetToIpa (("S AE1 T ER0 D EY2").toList)) ∧
    (translateWord (loadFromLines [(("SATURDAY  S AE1 T ER0 D EY2").toList)])
        (("saturday").toList)).spanish = some (("sáterdei").toList) ∧
    (translateWord (loadFromLines [(("SATURDAY  S AE1 T ER0 D EY2").toList)])
        (("saturday").toList)).found = true :=
  ⟨by decide, by decide, by decide⟩

/-- C2 (counterexample): the score is not a three-count tuple.  Under the
claim's three-count lexicographic score the alternate `T` of the corpus
`A  T IH0 T IH0` / `A(2)  T` scores strictly lower (fewer `IH0`) and would
replace the baseline, but the loader keeps the baseline `tɪtɪ`: the third
count does not exist in the code. -/
theorem claim_C2_counterexample :
    lex3Lt (claimScore3 (("T").toList)) (claimScore3 (("T IH0 T IH0").toList)) = true ∧
    lookupT (loadFromLines [(("A  T IH0 T IH0").toList), (("A(2)  T").toList)])
        (("a").toList) = some (("tɪtɪ").toList) ∧
    lookupT (loadFromLines [(("A  T IH0 T IH0").toList), (("A(2)  T").toList)])
        (("a").toList) ≠ some (arpabetToIpa (("T").toList)) :=
  ⟨by decide, by decide, by decide⟩

/-- C3 (counterexample): a token sequence with zero primary-stress-tagged
vowel tokens whose final output nevertheless contains one accent mark: the
unstressed `UW` maps to the long vowel `uː`, which the vowel table rewrites
to the accented `ú`. -/
theorem claim_C3_counterexample :
    primVowelCount [(("UW").toList)] = 0 ∧
    accentCount (ipaToSpanish (arpabetToIpa (("UW").toList))) = 1 :=
  ⟨by decide, by decide⟩

/-- C4 (counterexample): the full pipeline on the token sequence
`HH EH1 L OW0` does not produce `"jelou"`: the primary-stressed `EH1`
receives a graphic accent. -/
theorem claim_C4_counterexample :
    ipaToSpanish (arpabetToIpa (("HH EH1 L OW0").toList)) ≠ ("jelou").toList := by
  decide

/-- C4 (amended): the full pipeline on `HH EH1 L OW0` produces exactly
`"jélou"` — the accented form of the claimed output. -/
theorem claim_C4_amended :
    ipaToSpanish (arpabetToIpa (("HH EH1 L OW0").toList)) = ("jélou").toList := by
  decide

/-- C5 (counterexample): the rewrite engine is not idempotent on all of its
outputs: `ipa_to_spanish "h" = "j"`, but a second application turns the `j`
into `i`. -/
theorem claim_C5_counterexample :
    ipaToSpanish (ipaToSpanish (("h").toList)) ≠ ipaToSpanish (("h").toList) := by
  decide

/-- C9: the at-most-one-stress-sentinel invariant is not enforced by the
direct-notation entry point.  On input `ˈiˈi` (two standard primary stress
marks) every mark is converted into a stress sentinel — the string handed to
the rewrite engine contains two sentinels — and the final output `íí`
contains two accented vowels. -/
theorem claim_C9_two_sentinels :
    replaceAll (("ˈ").toList) SENT (("ˈiˈi").toList)
      = SENT ++ ('i' :: (SENT ++ [('i')])) ∧
    translateIpa (("ˈiˈi").toList) = ("íí").toList ∧
    accentCount (("íí").toList) = 2 :=
  ⟨by decide, by decide, by decide⟩

end Jelou
